import Mathlib

/-!
# Batch client for a remote OCR service: request lifecycle

A shallow embedding of `batch_pero_ocr.go`: key derivation (`ocrFilename`),
request submission (`postPreprocessRequest`), upload (`uploadFilesForOcr`,
`convertTiffToJpg`), status polling (`waitForOcrFinish`) and result download
(`downloadOcrAlto`).

Conventions of the embedding.

* A Go string holding text is a list of Unicode scalar values (`GoString`).
  Path functions follow `path/filepath` for the separator `/`.
* The Unicode library used by the program (`norm.NFD`, `norm.NFC`,
  `unicode.Mn`, `strings.ToLower`) is a parameter, `TextLib`; closed statements
  are evaluated on two excerpts of it, `czechLib` and `toneLib`.
* The local machine (image codecs, permissions, the endpoint and the URL check
  of `http.NewRequest`) is a parameter, `Env`; the directory is an explicit
  state `FS`, threaded through the functions.
* The remote service is an oracle handing out the result of each call.
* `os.Exit` and a run-time panic are explicit results.
-/

namespace PeroOcr

/-! ## Strings and paths -/

/-- A Go string holding text: its sequence of runes. -/
abbrev GoString := List Char

/-- Contents of a file or of a response body. -/
abbrev Content := List Char

/-- The test `os.IsPathSeparator` for the separator `/`. -/
def isPathSeparator (c : Char) : Bool := c == '/'

/-- First loop of `filepath.Base`: strip trailing separators. -/
def stripTrailingSeparators (path : GoString) : GoString :=
  (path.reverse.dropWhile isPathSeparator).reverse

/-- Second loop of `filepath.Base`: what follows the last separator. -/
def lastElement (path : GoString) : GoString :=
  (path.reverse.takeWhile (fun c => !isPathSeparator c)).reverse

/-- The function `filepath.Base`: the last element of a path; `.` for the empty
path and `/` for a path made of separators only. -/
def Base (path : GoString) : GoString :=
  if path = [] then ['.']
  else
    let e := lastElement (stripTrailingSeparators path)
    if e = [] then ['/'] else e

/-- The function `filepath.Ext`: the suffix starting at the last dot of the last
element, empty when that element has no dot. -/
def Ext (path : GoString) : GoString :=
  let tail := path.reverse.takeWhile (fun c => !(c == '.') && !isPathSeparator c)
  match path.reverse.drop tail.length with
  | '.' :: _ => '.' :: tail.reverse
  | _ => []

/-- The function `strings.TrimSuffix`. -/
def TrimSuffix (s suffix : GoString) : GoString :=
  if suffix.isSuffixOf s then s.take (s.length - suffix.length) else s

/-- The function `strings.ReplaceAll` for a one-rune pattern `old`. -/
def ReplaceAll (s : GoString) (old : Char) (new : GoString) : GoString :=
  s.flatMap (fun c => if c = old then new else [c])

/-! ## Key derivation -/

/-- The Unicode library the program links against. -/
structure TextLib where
  /-- The transformer `norm.NFD` applied to a whole string. -/
  nfd : GoString → GoString
  /-- The transformer `norm.NFC` applied to a whole string. -/
  nfc : GoString → GoString
  /-- Membership in the range table `unicode.Mn`. -/
  inMn : Char → Bool
  /-- The function `strings.ToLower`. -/
  toLower : GoString → GoString

/-- Source `isMn`: is the rune a nonspacing mark. -/
def isMn (L : TextLib) (r : Char) : Bool := L.inMn r

/-- The transformer `transform.RemoveFunc f`: drop the runes satisfying `f`. -/
def RemoveFunc (f : Char → Bool) (s : GoString) : GoString :=
  s.filter (fun r => !f r)

/-- Source `normalizeString`: the chain NFD, remove nonspacing marks, NFC. -/
def normalizeString (L : TextLib) (s : GoString) : GoString :=
  L.nfc (RemoveFunc (isMn L) (L.nfd s))

/-- Source `ocrFilename`: the key under which a file is known to the service. -/
def ocrFilename (L : TextLib) (file : GoString) : GoString :=
  normalizeString L (ReplaceAll (Base file) ' ' [])

/-- Source `imgExts`. -/
def imgExts : List GoString :=
  [".tiff".toList, ".tif".toList, ".jpg".toList, ".png".toList, ".jp2".toList,
   ".jp2k".toList]

/-- Source `isImage`: is the extension on the list. -/
def isImage (file : GoString) : Bool :=
  imgExts.any (fun imgExt => imgExt == Ext file)

/-! ### An excerpt of the Unicode data: ASCII and the Czech accented letters -/

/-- Canonical decompositions (composite, base letter, combining mark) of the
Czech accented letters of either case, from `UnicodeData.txt`. -/
def czechPairs : List (Char × Char × Char) :=
  [(Char.ofNat 0xC1, 'A', Char.ofNat 0x301), (Char.ofNat 0xC9, 'E', Char.ofNat 0x301),
   (Char.ofNat 0xCD, 'I', Char.ofNat 0x301), (Char.ofNat 0xD3, 'O', Char.ofNat 0x301),
   (Char.ofNat 0xDA, 'U', Char.ofNat 0x301), (Char.ofNat 0xDD, 'Y', Char.ofNat 0x301),
   (Char.ofNat 0x10C, 'C', Char.ofNat 0x30C), (Char.ofNat 0x10E, 'D', Char.ofNat 0x30C),
   (Char.ofNat 0x11A, 'E', Char.ofNat 0x30C), (Char.ofNat 0x147, 'N', Char.ofNat 0x30C),
   (Char.ofNat 0x158, 'R', Char.ofNat 0x30C), (Char.ofNat 0x160, 'S', Char.ofNat 0x30C),
   (Char.ofNat 0x164, 'T', Char.ofNat 0x30C), (Char.ofNat 0x17D, 'Z', Char.ofNat 0x30C),
   (Char.ofNat 0x16E, 'U', Char.ofNat 0x30A),
   (Char.ofNat 0xE1, 'a', Char.ofNat 0x301), (Char.ofNat 0xE9, 'e', Char.ofNat 0x301),
   (Char.ofNat 0xED, 'i', Char.ofNat 0x301), (Char.ofNat 0xF3, 'o', Char.ofNat 0x301),
   (Char.ofNat 0xFA, 'u', Char.ofNat 0x301), (Char.ofNat 0xFD, 'y', Char.ofNat 0x301),
   (Char.ofNat 0x10D, 'c', Char.ofNat 0x30C), (Char.ofNat 0x10F, 'd', Char.ofNat 0x30C),
   (Char.ofNat 0x11B, 'e', Char.ofNat 0x30C), (Char.ofNat 0x148, 'n', Char.ofNat 0x30C),
   (Char.ofNat 0x159, 'r', Char.ofNat 0x30C), (Char.ofNat 0x161, 's', Char.ofNat 0x30C),
   (Char.ofNat 0x165, 't', Char.ofNat 0x30C), (Char.ofNat 0x17E, 'z', Char.ofNat 0x30C),
   (Char.ofNat 0x16F, 'u', Char.ofNat 0x30A)]

/-- Canonical decomposition of one rune of the excerpt. -/
def czechDecompose (c : Char) : GoString :=
  match czechPairs.find? (fun e => e.1 == c) with
  | some e => [e.2.1, e.2.2]
  | none => [c]

/-- Primary composite of a base letter and a mark of the excerpt. -/
def czechComposePair (b m : Char) : Option Char :=
  (czechPairs.find? (fun e => e.2.1 == b && e.2.2 == m)).map (fun e => e.1)

/-- One step of canonical composition; `acc` is the output so far, reversed.
The three marks of the table share one combining class, so a mark combines
with the rune right before it or not at all. -/
def czechComposeStep (acc : GoString) (m : Char) : GoString :=
  match acc with
  | [] => [m]
  | c :: rest =>
    match czechComposePair c m with
    | some x => x :: rest
    | none => m :: c :: rest

/-- Canonical decomposition on the excerpt (the marks share one combining
class, so no reordering takes place). -/
def czechNFD (s : GoString) : GoString := s.flatMap czechDecompose

/-- Canonical composition on the excerpt. -/
def czechNFC (s : GoString) : GoString :=
  ((czechNFD s).foldl czechComposeStep []).reverse

/-- An excerpt of the Unicode library, not the library itself: ASCII, the Czech
accented letters of either case and the block of combining diacritical marks
U+0300 to U+036F, all of category Mn. Every other rune is taken as it is: no
decomposition, not a mark, no lower case. The forms `nfd` and `nfc` are those
of the library on strings made of ASCII runes, of these letters and of the
two-rune decompositions of these letters; `normalizeString` and `ocrFilename`
computed with the excerpt are those of the program on strings of ASCII runes,
of these letters and of marks of the block, where they keep the base letters
and drop the marks. The statements below evaluate it on such strings only. -/
def czechLib : TextLib where
  nfd := czechNFD
  nfc := czechNFC
  inMn := fun c => decide (0x300 ≤ c.toNat) && decide (c.toNat ≤ 0x36F)
  toLower := fun s => s.map Char.toLower

/-! ### An excerpt of the Unicode data: a non-starter that is not a mark -/

/-- The Hangul single dot tone mark U+302E: a spacing mark (category Mc) of
combining class 224, so a non-starter that `unicode.Mn` does not hold. -/
def toneMark : Char := Char.ofNat 0x302E

/-- The combining grapheme joiner U+034F, of category Mn. -/
def graphemeJoiner : Char := Char.ofNat 0x34F

/-- The stream-safe rule of `x/text/unicode/norm`, which all its normal forms
apply: a combining grapheme joiner is inserted before a non-starter that
follows 30 non-starters. Here `count` is the number of non-starters since the
last starter, and the tone mark is the only non-starter. -/
def streamSafe (count : Nat) (s : GoString) : GoString :=
  match s with
  | [] => []
  | c :: rest =>
    if c = toneMark then
      if 30 ≤ count then graphemeJoiner :: c :: streamSafe 1 rest
      else c :: streamSafe (count + 1) rest
    else c :: streamSafe 0 rest

/-- An excerpt of the Unicode library, not the library itself: ASCII, the tone
mark U+302E and the combining grapheme joiner. None of these runes decomposes
or composes and the tone marks share one combining class, so both normal forms
only apply the stream-safe rule. The statements below evaluate it on strings of
these runes only. -/
def toneLib : TextLib where
  nfd := streamSafe 0
  nfc := streamSafe 0
  inMn := fun c => c == graphemeJoiner
  toLower := fun s => s.map Char.toLower

/-! ## Decoded JSON and Go maps -/

/-- A value decoded from JSON into `interface{}`. -/
inductive JVal where
  | null : JVal
  | bool (b : Bool) : JVal
  | num (n : Int) : JVal
  | str (s : GoString) : JVal
  | arr (xs : List JVal) : JVal
  | obj (kvs : List (GoString × JVal)) : JVal

instance : Inhabited JVal := ⟨JVal.null⟩

/-- A `map[string]interface{}`: an association list read by its first match. -/
abbrev JMap := List (GoString × JVal)

/-- Map index expression `m[k]` with the comma-ok result. -/
def mapGet (m : JMap) (k : GoString) : Option JVal :=
  match m with
  | [] => none
  | (k', v) :: rest => if k' = k then some v else mapGet rest k

/-- Map assignment `m[k] = v`. -/
def mapSet (m : JMap) (k : GoString) (v : JVal) : JMap :=
  match m with
  | [] => [(k, v)]
  | (k', v') :: rest => if k' = k then (k, v) :: rest else (k', v') :: mapSet rest k v

/-- The keys of a map. -/
def mapKeys (m : JMap) : List GoString := m.map Prod.fst

/-- Comparison `v == s` of an interface value with a string constant. -/
def ifaceEqString (v : Option JVal) (s : GoString) : Bool :=
  match v with
  | some (JVal.str t) => t == s
  | _ => false

/-! ## Results of calls -/

/-- What `client.Do` hands back: a transport error, or a response with its
status code and body. -/
inductive HttpResult (β : Type) where
  | transportError (timeout : Bool) : HttpResult β
  | response (status : Nat) (body : β) : HttpResult β
deriving DecidableEq

/-- How a function of the program ends: it returns, the process exits with a
code after a message, or a run-time panic unwinds it. -/
inductive Outcome (α : Type) where
  | ret (a : α) : Outcome α
  | exit (code : Nat) (msg : String) : Outcome α
  | panic : Outcome α
deriving DecidableEq

/-- The exit code of an outcome, when the process exits. -/
def Outcome.exitCode {α : Type} (o : Outcome α) : Option Nat :=
  match o with
  | Outcome.exit code _ => some code
  | _ => none

/-- The message of an outcome, when the process exits. -/
def Outcome.exitMsg {α : Type} (o : Outcome α) : Option String :=
  match o with
  | Outcome.exit _ msg => some msg
  | _ => none

/-! ## Request submission -/

/-- The `imgs` map built by the loop of `postPreprocessRequest`. -/
def imagesMap (L : TextLib) (files : List GoString) : JMap :=
  files.foldl (fun imgs file => mapSet imgs (ocrFilename L file) JVal.null) []

/-- The `data` map marshalled into the request body. -/
def requestData (L : TextLib) (engineID : Int) (files : List GoString) : JMap :=
  mapSet (mapSet [] "engine".toList (JVal.num engineID)) "images".toList
    (JVal.obj (imagesMap L files))

/-- Source `postPreprocessRequest`. The service answers the request body with
`client`; a body that is not JSON for a map decodes to `none`. The result is the
request identifier, or the empty string when the answer is not a success. The
error branch of `json.Marshal` is left out: a map of an integer and of null
values always marshals. -/
def postPreprocessRequest (L : TextLib) (engineID : Int) (files : List GoString)
    (client : JMap → HttpResult (Option JMap)) : Outcome GoString :=
  match client (requestData L engineID files) with
  | HttpResult.transportError _ =>
    Outcome.exit 1 "Error creating request for post_preprocess_request"
  | HttpResult.response status body =>
    if status ≠ 200 then
      if status = 404 then
        Outcome.exit 6
          "Error for post_preprocess_request server responded 404 - ocr engine not found"
      else if status = 422 then
        Outcome.exit 6
          "Error for post_preprocess_request server responded 422 - bad json data"
      else
        Outcome.exit 6 ("Error for post_preprocess_request server responded "
          ++ toString status ++ " (this error is not implemented)")
    else
      match body with
      | none =>
        Outcome.exit 6
          "Error for post_preprocess_request server not responded using json, cannot continue"
      | some respData =>
        if ifaceEqString (mapGet respData "status".toList) "success".toList then
          match mapGet respData "request_id".toList with
          | some (JVal.str id) => Outcome.ret id
          | _ => Outcome.panic
        else Outcome.ret []

/-! ## Status polling -/

/-- The variables `done` and `doneCount` of `waitForOcrFinish`. -/
structure PollVars where
  done : Bool
  doneCount : Nat
deriving DecidableEq

/-- Body of the loop over the files in one poll cycle; `none` is a panic of a
type assertion. -/
def pollFile (L : TextLib) (respData : JMap) (v : PollVars) (file : GoString) :
    Option PollVars :=
  match mapGet respData "request_status".toList with
  | none => some v
  | some (JVal.obj statuses) =>
    match mapGet statuses (ocrFilename L file) with
    | some (JVal.obj img) =>
      if ifaceEqString (mapGet img "state".toList) "PROCESSED".toList then
        some { v with doneCount := v.doneCount + 1 }
      else
        some { v with done := false }
    | _ => none
  | some _ => none

/-- Does the status map report the state `PROCESSED` under the key. -/
def reportsProcessed (statuses : JMap) (key : GoString) : Bool :=
  match mapGet statuses key with
  | some (JVal.obj img) => ifaceEqString (mapGet img "state".toList) "PROCESSED".toList
  | _ => false

/-- The loop over the files in one poll cycle. -/
def pollFiles (L : TextLib) (respData : JMap) (v : PollVars) (files : List GoString) :
    Option PollVars :=
  match files with
  | [] => some v
  | file :: rest =>
    match pollFile L respData v file with
    | none => none
    | some v' => pollFiles L respData v' rest

/-- How one poll cycle that neither exits nor panics ends: `leave` is the
`break` out of the loop, `retryLogged` records that the cycle logged that it
would try again and slept. -/
structure CycleEnd where
  leave : Bool
  doneCount : Nat
  retryLogged : Bool
deriving DecidableEq

/-- One iteration of the loop of `waitForOcrFinish`, given what the status call
hands back. -/
def pollCycle (L : TextLib) (files : List GoString)
    (res : HttpResult (Option JMap)) : Outcome CycleEnd :=
  match res with
  | HttpResult.transportError timeout =>
    if timeout then Outcome.exit 1 "Error connection timeout for request_status"
    else Outcome.exit 1 "Error creating request for request_status"
  | HttpResult.response status body =>
    if status ≠ 200 then
      if status = 404 then
        Outcome.exit 6
          "Error for request_status server responded 404 - Request doesn't exist."
      else if status = 401 then
        Outcome.exit 6
          "Error for request_status server responded 422 - Request doesn't belong to this API key."
      else
        Outcome.exit 6 ("Error for request_status server responded "
          ++ toString status ++ " (this error is not implemented)")
    else
      match body with
      | none => Outcome.exit 7 "Error decoding status response"
      | some respData =>
        match pollFiles L respData { done := true, doneCount := 0 } files with
        | none => Outcome.panic
        | some v =>
          Outcome.ret
            { leave := v.done, doneCount := v.doneCount,
              retryLogged := decide (v.doneCount ≠ files.length) }

/-- Source `waitForOcrFinish`, run against the successive answers of the
service. It returns the number of cycles made when the loop is left, and
`none` when the answers run out while it is still polling. -/
def waitForOcrFinish (L : TextLib) (files : List GoString)
    (answers : List (HttpResult (Option JMap))) : Outcome (Option Nat) :=
  match answers with
  | [] => Outcome.ret none
  | res :: rest =>
    match pollCycle L files res with
    | Outcome.exit code msg => Outcome.exit code msg
    | Outcome.panic => Outcome.panic
    | Outcome.ret e =>
      if e.leave then Outcome.ret (some 1)
      else
        match waitForOcrFinish L files rest with
        | Outcome.ret (some n) => Outcome.ret (some (n + 1))
        | o => o

/-! ## The directory and the local machine -/

/-- The files of the directory: the content stored under each path. -/
abbrev FS := GoString → Option Content

/-- The directory after `path` is given the content `c`. -/
def FS.write (fs : FS) (path : GoString) (c : Content) : FS :=
  fun q => if q = path then some c else fs q

/-- The directory after `os.Remove path`. -/
def FS.remove (fs : FS) (path : GoString) : FS :=
  fun q => if q = path then none else fs q

/-- The local machine. -/
structure Env where
  /-- The decoder `tiff.Decode`; `none` is its error. -/
  tiffDecode : Content → Option Content
  /-- The encoder `jpeg.Encode`: the bytes it wrote and whether it succeeded. -/
  jpegEncode : Content → Content × Bool
  /-- May the path be opened for reading. -/
  canRead : GoString → Bool
  /-- May the path be created or opened for writing. -/
  canWrite : GoString → Bool
  /-- The package variable `endpoint`. -/
  endpoint : GoString
  /-- Does `http.NewRequest` build a request for the URL; it returns a nil
  request with an error when the URL does not parse. -/
  newRequest : GoString → Bool

/-- An ASCII control character, which `url.Parse` rejects. -/
def isControl (c : Char) : Bool := decide (c.toNat < 0x20) || decide (c.toNat = 0x7F)

/-- A hexadecimal digit. -/
def isHex (c : Char) : Bool :=
  (decide ('0' ≤ c) && decide (c ≤ '9')) || (decide ('a' ≤ c) && decide (c ≤ 'f')) ||
    (decide ('A' ≤ c) && decide (c ≤ 'F'))

/-- Is every percent sign followed by two hexadecimal digits, as `url.Parse`
demands of a path and of a fragment. -/
def escapesValid (s : GoString) : Bool :=
  match s with
  | [] => true
  | c :: rest =>
    if c = '%' then
      match rest with
      | a :: b :: rest' => isHex a && isHex b && escapesValid rest'
      | _ => false
    else escapesValid rest

/-- The checks of `url.Parse` that a URL made of an endpoint that parses and of
further path elements can fail: no control character before the first `#`,
and valid escapes in the path (up to the first `?` or `#`) and in the fragment
(after the first `#`); the query is not looked into. -/
def urlAccepted (url : GoString) : Bool :=
  !(url.takeWhile (fun c => !(c == '#'))).any isControl &&
    escapesValid ((url.takeWhile (fun c => !(c == '#'))).takeWhile (fun c => !(c == '?'))) &&
    escapesValid ((url.dropWhile (fun c => !(c == '#'))).drop 1)

/-- A machine on which every path may be read and written and every image
decodes and encodes; the encoder marks what it wrote. The endpoint is the
default one of the program. -/
def plainEnv : Env where
  tiffDecode := fun c => some c
  jpegEncode := fun c => ("jpeg of ".toList ++ c, true)
  canRead := fun _ => true
  canWrite := fun _ => true
  endpoint := "https://pero-ocr.fit.vutbr.cz/api/".toList
  newRequest := urlAccepted

/-- A machine like `plainEnv` on which the listed paths may not be read. -/
def lockedEnv (locked : List GoString) : Env where
  tiffDecode := fun c => some c
  jpegEncode := fun c => ("jpeg of ".toList ++ c, true)
  canRead := fun path => !locked.contains path
  canWrite := fun _ => true
  endpoint := "https://pero-ocr.fit.vutbr.cz/api/".toList
  newRequest := urlAccepted

/-- The directory holding exactly the listed files. -/
def fsOf (entries : List (GoString × Content)) : FS :=
  fun path => List.lookup path entries

/-- The call `os.Open`: the content read through the handle, `none` on error. -/
def osOpen (E : Env) (fs : FS) (path : GoString) : Option Content :=
  if E.canRead path then fs path else none

/-! ## Transcoding and upload -/

/-- Source `convertTiffToJpg`: the path to upload (empty on failure) and the
directory afterwards. -/
def convertTiffToJpg (L : TextLib) (E : Env) (fs : FS) (file : GoString) :
    GoString × FS :=
  let ext := Ext file
  if L.toLower ext = ".tif".toList ∨ L.toLower ext = ".tiff".toList then
    match osOpen E fs file with
    | none => ([], fs)
    | some bytes =>
      match E.tiffDecode bytes with
      | none => ([], fs)
      | some decode =>
        let jpgFile := TrimSuffix file ext ++ ".jpg".toList
        if E.canWrite jpgFile then
          let written := E.jpegEncode decode
          if written.2 then (jpgFile, fs.write jpgFile written.1)
          else ([], fs.write jpgFile written.1)
        else ([], fs)
  else (file, fs)

/-- The test of `convertTiffToJpg` for a TIFF extension. -/
@[reducible] def isTiffPath (L : TextLib) (file : GoString) : Prop :=
  L.toLower (Ext file) = ".tif".toList ∨ L.toLower (Ext file) = ".tiff".toList

/-- The path `convertTiffToJpg` writes the transcoded image to. -/
def jpgPath (file : GoString) : GoString :=
  TrimSuffix file (Ext file) ++ ".jpg".toList

/-- One upload request: the key in the URL, the path of the file sent and the
bytes read from it. -/
structure UploadRequest where
  key : GoString
  sent : GoString
  bytes : Content
deriving DecidableEq

/-- What `uploadFilesForOcr` leaves behind: the returned list, the directory and
the requests made, in order. -/
structure UploadEnd where
  uploadedFiles : List GoString
  fs : FS
  requests : List UploadRequest

/-- The URL of the upload request for a key. -/
def uploadURL (E : Env) (requestId key : GoString) : GoString :=
  E.endpoint ++ "upload_image/".toList ++ requestId ++ "/".toList ++ key

/-- Body of the loop of `uploadFilesForOcr` for the file at position `i`;
`outcomes i` is what `c.Do` hands back for it. The result `none` is a panic:
that of `mustOpen`, or the nil dereference of `req.Header.Set` when
`http.NewRequest`, whose error is discarded, has built no request. -/
def uploadStep (L : TextLib) (E : Env) (requestId : GoString)
    (outcomes : Nat → HttpResult Unit)
    (i : Nat) (st : UploadEnd) (file : GoString) : Option UploadEnd :=
  let conv := convertTiffToJpg L E st.fs file
  let f := if conv.1 = [] then file else conv.1
  match osOpen E conv.2 f with
  | none => none
  | some bytes =>
    if E.newRequest (uploadURL E requestId (ocrFilename L file)) then
      let req : UploadRequest := { key := ocrFilename L file, sent := f, bytes := bytes }
      let fs' := if file ≠ f then conv.2.remove f else conv.2
      match outcomes i with
      | HttpResult.transportError _ =>
        some { uploadedFiles := st.uploadedFiles, fs := fs', requests := st.requests ++ [req] }
      | HttpResult.response status _ =>
        if status ≠ 200 then
          some { uploadedFiles := st.uploadedFiles, fs := fs',
                 requests := st.requests ++ [req] }
        else
          some { uploadedFiles := st.uploadedFiles ++ [file], fs := fs',
                 requests := st.requests ++ [req] }
    else none

/-- The loop of `uploadFilesForOcr` from position `i` on. -/
def uploadLoop (L : TextLib) (E : Env) (requestId : GoString)
    (outcomes : Nat → HttpResult Unit)
    (i : Nat) (st : UploadEnd) (files : List GoString) : Option UploadEnd :=
  match files with
  | [] => some st
  | file :: rest =>
    match uploadStep L E requestId outcomes i st file with
    | none => none
    | some st' => uploadLoop L E requestId outcomes (i + 1) st' rest

/-- Source `uploadFilesForOcr`. -/
def uploadFilesForOcr (L : TextLib) (E : Env) (fs : FS) (files : List GoString)
    (requestId : GoString) (outcomes : Nat → HttpResult Unit) : Option UploadEnd :=
  uploadLoop L E requestId outcomes 0 { uploadedFiles := [], fs := fs, requests := [] } files

/-- Did the upload of a file succeed: a response with status 200. -/
def uploadOk (r : HttpResult Unit) : Bool :=
  match r with
  | HttpResult.transportError _ => false
  | HttpResult.response status _ => decide (status = 200)

/-- The files whose upload succeeded, among `files` standing at positions
`i`, `i + 1`, ... of the list, in order. -/
def succeededFrom (outcomes : Nat → HttpResult Unit) (i : Nat) (files : List GoString) :
    List GoString :=
  match files with
  | [] => []
  | file :: rest =>
    if uploadOk (outcomes i) then file :: succeededFrom outcomes (i + 1) rest
    else succeededFrom outcomes (i + 1) rest

/-- Every file of the list can be opened and has an upload URL that
`http.NewRequest` accepts, and no TIFF file of the list has its transcoded
sibling in the list or unreadable. -/
@[reducible] def UploadReady (L : TextLib) (E : Env) (fs : FS) (files : List GoString)
    (requestId : GoString) : Prop :=
  ∀ f ∈ files, osOpen E fs f ≠ none ∧
    E.newRequest (uploadURL E requestId (ocrFilename L f)) = true ∧
    (isTiffPath L f → jpgPath f ∉ files ∧ E.canRead (jpgPath f) = true)

/-! ## Result download -/

/-- The two artifacts of a key. -/
inductive Artifact where
  | txt : Artifact
  | alto : Artifact
deriving DecidableEq, Fintype

/-- The extension of the output file of an artifact. -/
def Artifact.ext (a : Artifact) : GoString :=
  match a with
  | Artifact.txt => ".txt".toList
  | Artifact.alto => ".xml".toList

/-- The output file of an artifact of `file`: the path without its extension,
followed by the extension of the artifact. -/
def outputPath (file : GoString) (a : Artifact) : GoString :=
  TrimSuffix file (Ext file) ++ a.ext

/-- The calls `os.OpenFile(filename, O_CREATE|O_RDWR)`, `Write(b)` and `Close`:
the bytes go to the start of the file, which is created when missing and keeps
what it held beyond them otherwise. -/
def writeAtStart (fs : FS) (filename : GoString) (b : Content) : FS :=
  fs.write filename (b ++ ((fs filename).getD []).drop b.length)

/-- The URL of the fetch of an artifact of a key. -/
def downloadURL (E : Env) (requestId key : GoString) (a : Artifact) : GoString :=
  E.endpoint ++ "download_results/".toList ++ requestId ++ "/".toList ++ key ++
    (match a with
     | Artifact.txt => "/txt".toList
     | Artifact.alto => "/alto".toList)

/-- What `downloadOcrAlto` leaves behind: the exit code if the process exited,
whether it panicked, the directory, and the artifact fetches made, in order, as
the position of the file, its key and the artifact. -/
structure DownloadEnd where
  exit : Option Nat
  panicked : Bool
  fs : FS
  fetches : List (Nat × GoString × Artifact)

/-- One artifact fetch of `downloadOcrAlto` for the file at position `i`. The
first component tells how the loop body goes on: `none` when the process
stops, `some false` for the `continue`, `some true` to fall through. The
process stops by the nil dereference of `req.Header.Set` when
`http.NewRequest`, whose error is discarded, has built no request, and by
`os.Exit(1)` when the call ends in a transport error. -/
def fetchArtifact (L : TextLib) (E : Env) (requestId : GoString)
    (answers : Nat → Artifact → HttpResult Content) (i : Nat) (file : GoString)
    (a : Artifact) (st : DownloadEnd) : Option Bool × DownloadEnd :=
  if E.newRequest (downloadURL E requestId (ocrFilename L file) a) then
    let st1 : DownloadEnd := { st with fetches := st.fetches ++ [(i, ocrFilename L file, a)] }
    match answers i a with
    | HttpResult.transportError _ => (none, { st1 with exit := some 1 })
    | HttpResult.response status b =>
      if status = 200 then
        let filename := outputPath file a
        if E.canWrite filename then
          (some true, { st1 with fs := writeAtStart st1.fs filename b })
        else (some false, st1)
      else (some true, st1)
  else (none, { st with panicked := true })

/-- The loop of `downloadOcrAlto` from position `i` on. -/
def downloadLoop (L : TextLib) (E : Env) (requestId : GoString)
    (answers : Nat → Artifact → HttpResult Content) (i : Nat) (st : DownloadEnd)
    (files : List GoString) : DownloadEnd :=
  match files with
  | [] => st
  | file :: rest =>
    match fetchArtifact L E requestId answers i file Artifact.txt st with
    | (none, st1) => st1
    | (some false, st1) => downloadLoop L E requestId answers (i + 1) st1 rest
    | (some true, st1) =>
      match fetchArtifact L E requestId answers i file Artifact.alto st1 with
      | (none, st2) => st2
      | (some _, st2) => downloadLoop L E requestId answers (i + 1) st2 rest

/-- Source `downloadOcrAlto`. -/
def downloadOcrAlto (L : TextLib) (E : Env) (fs : FS) (files : List GoString)
    (requestId : GoString) (answers : Nat → Artifact → HttpResult Content) : DownloadEnd :=
  downloadLoop L E requestId answers 0
    { exit := none, panicked := false, fs := fs, fetches := [] } files

/-- Did the call end in a transport error. -/
def isTransport {β : Type} (r : HttpResult β) : Bool :=
  match r with
  | HttpResult.transportError _ => true
  | HttpResult.response _ _ => false

/-! ## Lemmas on strings and paths -/

/-- Deleting a rune leaves exactly the other runes. -/
theorem mem_ReplaceAll_nil (s : GoString) (old c : Char) :
    c ∈ ReplaceAll s old [] ↔ c ∈ s ∧ c ≠ old := by
  unfold ReplaceAll
  rw [List.mem_flatMap]
  constructor
  · rintro ⟨a, ha, hc⟩
    by_cases h : a = old
    · simp [h] at hc
    · simp [h] at hc
      subst hc
      exact ⟨ha, h⟩
  · rintro ⟨hc, hne⟩
    exact ⟨c, hc, by simp [hne]⟩

/-- Deleting a rune that does not occur changes nothing. -/
theorem ReplaceAll_nil_of_not_mem (s : GoString) (old : Char) (h : old ∉ s) :
    ReplaceAll s old [] = s := by
  unfold ReplaceAll
  induction s with
  | nil => rfl
  | cons a t ih =>
    have ha : a ≠ old := fun e => h (by simp [e])
    have ht : old ∉ t := fun e => h (by simp [e])
    simp [List.flatMap_cons, ha]
    simpa using ih ht

/-- Nothing is dropped when the first element fails the test. -/
theorem dropWhile_of_head_false {α : Type} (p : α → Bool) (l : List α)
    (h : ∀ a, l.head? = some a → p a = false) : l.dropWhile p = l := by
  cases l with
  | nil => rfl
  | cons a t => simp [List.dropWhile_cons, h a rfl]

/-- A base name holds no separator, unless it is the root `/`. -/
theorem Base_sep (p : GoString) : '/' ∉ Base p ∨ Base p = ['/'] := by
  unfold Base
  by_cases hp : p = []
  · left; simp [hp]
  · simp only [hp, if_false]
    by_cases he : lastElement (stripTrailingSeparators p) = []
    · right; simp [he]
    · left
      simp only [he, if_false]
      intro hmem
      unfold lastElement at hmem
      rw [List.mem_reverse] at hmem
      have := List.mem_takeWhile_imp hmem
      simp [isPathSeparator] at this

/-- A non-empty name without separator is its own base name. -/
theorem Base_fix (k : GoString) (hne : k ≠ []) (hsep : '/' ∉ k) : Base k = k := by
  have hall : ∀ c ∈ k.reverse, isPathSeparator c = false := by
    intro c hc
    rw [List.mem_reverse] at hc
    by_cases h : c = '/'
    · exact absurd (h ▸ hc) hsep
    · simp [isPathSeparator, h]
  have h1 : stripTrailingSeparators k = k := by
    unfold stripTrailingSeparators
    rw [dropWhile_of_head_false, List.reverse_reverse]
    intro a ha
    exact hall a (List.mem_of_mem_head? ha)
  have h2 : lastElement k = k := by
    unfold lastElement
    rw [List.takeWhile_eq_self_iff.mpr, List.reverse_reverse]
    intro c hc
    simp [hall c hc]
  unfold Base
  simp [hne, h1, h2]

/-- The base name of the root is the root. -/
theorem Base_slash : Base ['/'] = ['/'] := by decide

/-! ## Facts on the excerpt of the Unicode data -/

/-- What the proofs below read off the table of the excerpt. -/
theorem czechPairs_facts :
    ∀ e ∈ czechPairs,
      czechLib.inMn e.2.2 = true ∧ czechLib.inMn e.2.1 = false ∧ czechLib.inMn e.1 = false ∧
      czechComposePair e.2.1 e.2.2 = some e.1 ∧
      czechPairs.find? (fun x => x.1 == e.2.1) = none ∧
      czechPairs.find? (fun x => x.1 == e.2.2) = none ∧
      e.2.1 ≠ ' ' ∧ e.2.2 ≠ ' ' ∧ e.2.1 ≠ '/' ∧ e.2.2 ≠ '/' := by
  decide

/-- Nothing combines with a rune that is not a mark. -/
theorem czechComposePair_nonmark (x b : Char) (hb : czechLib.inMn b = false) :
    czechComposePair x b = none := by
  unfold czechComposePair
  rw [Option.map_eq_none', List.find?_eq_none]
  intro e he hpred
  have hm := (czechPairs_facts e he).1
  simp only [Bool.and_eq_true, beq_iff_eq] at hpred
  rw [hpred.2, hb] at hm
  exact absurd hm (by simp)

/-- A rune that is not a mark is appended as it is. -/
theorem czechComposeStep_nonmark (acc : GoString) (b : Char) (hb : czechLib.inMn b = false) :
    czechComposeStep acc b = b :: acc := by
  cases acc with
  | nil => rfl
  | cons c rest => simp [czechComposeStep, czechComposePair_nonmark c b hb]

/-- A rune is kept, or replaced by the two runes of its table entry. -/
theorem czechDecompose_cases (c : Char) :
    czechDecompose c = [c] ∨ ∃ e ∈ czechPairs, e.1 = c ∧ czechDecompose c = [e.2.1, e.2.2] := by
  unfold czechDecompose
  cases h : czechPairs.find? (fun e => e.1 == c) with
  | none => exact Or.inl rfl
  | some e =>
    right
    refine ⟨e, List.mem_of_find?_eq_some h, ?_, rfl⟩
    have := List.find?_some h
    simpa using this

/-- Composing the decomposition of a string without marks gives the string back.
-/
theorem czech_fold_decomposed (s acc : GoString) (hs : ∀ c ∈ s, czechLib.inMn c = false) :
    (czechNFD s).foldl czechComposeStep acc = s.reverse ++ acc := by
  induction s generalizing acc with
  | nil => rfl
  | cons c rest ih =>
    have hc := hs c (List.mem_cons_self _ _)
    have hrest : ∀ x ∈ rest, czechLib.inMn x = false :=
      fun x hx => hs x (List.mem_cons_of_mem _ hx)
    have hstep : (czechDecompose c).foldl czechComposeStep acc = c :: acc := by
      rcases czechDecompose_cases c with h | ⟨e, he, hec, h⟩
      · rw [h]
        simp [czechComposeStep_nonmark acc c hc]
      · obtain ⟨-, hbase, -, hpair, -⟩ := czechPairs_facts e he
        rw [h]
        simp only [List.foldl_cons, List.foldl_nil]
        rw [czechComposeStep_nonmark acc _ hbase]
        simp [czechComposeStep, hpair, hec]
    unfold czechNFD at ih ⊢
    rw [List.flatMap_cons, List.foldl_append, hstep, ih _ hrest]
    simp

/-- The excerpt NFC leaves a string without marks unchanged. -/
theorem czechNFC_of_markfree (s : GoString) (hs : ∀ c ∈ s, czechLib.inMn c = false) :
    czechNFC s = s := by
  unfold czechNFC
  rw [czech_fold_decomposed s [] hs]
  simp

/-- No rune of an NFD form of the excerpt has a decomposition. -/
theorem czechNFD_undecomposable (s : GoString) :
    ∀ c ∈ czechNFD s, czechPairs.find? (fun x => x.1 == c) = none := by
  intro c hc
  unfold czechNFD at hc
  rw [List.mem_flatMap] at hc
  obtain ⟨a, -, hca⟩ := hc
  rcases czechDecompose_cases a with h | ⟨e, he, -, h⟩
  · rw [h, List.mem_singleton] at hca
    subst hca
    unfold czechDecompose at h
    cases hf : czechPairs.find? (fun x => x.1 == c) with
    | none => rfl
    | some e =>
      rw [hf] at h
      have := congrArg List.length h
      simp at this
  · obtain ⟨-, -, -, -, h1, h2, -⟩ := czechPairs_facts e he
    rw [h] at hca
    simp only [List.mem_cons, List.mem_singleton, List.not_mem_nil, or_false] at hca
    rcases hca with rfl | rfl
    · exact h1
    · exact h2

/-- The excerpt NFD leaves a string of undecomposable runes unchanged. -/
theorem czechNFD_of_undecomposable (t : GoString)
    (ht : ∀ c ∈ t, czechPairs.find? (fun x => x.1 == c) = none) : czechNFD t = t := by
  induction t with
  | nil => rfl
  | cons c rest ih =>
    have hc : czechDecompose c = [c] := by
      unfold czechDecompose
      rw [ht c (List.mem_cons_self _ _)]
    unfold czechNFD at ih ⊢
    rw [List.flatMap_cons, hc, ih (fun x hx => ht x (List.mem_cons_of_mem _ hx))]
    rfl

/-- The runes left by `RemoveFunc f` are those failing `f`. -/
theorem mem_RemoveFunc (f : Char → Bool) (s : GoString) (c : Char) :
    c ∈ RemoveFunc f s ↔ c ∈ s ∧ f c = false := by
  unfold RemoveFunc
  simp [List.mem_filter]

/-- Removing changes nothing when no rune satisfies the test. -/
theorem RemoveFunc_of_none (f : Char → Bool) (s : GoString) (h : ∀ c ∈ s, f c = false) :
    RemoveFunc f s = s := by
  unfold RemoveFunc
  rw [List.filter_eq_self]
  intro c hc
  simp [h c hc]

/-- On the excerpt `normalizeString` is the NFD form without its marks. -/
theorem czech_normalizeString (s : GoString) :
    normalizeString czechLib s = RemoveFunc (isMn czechLib) (czechNFD s) := by
  show czechNFC (RemoveFunc (isMn czechLib) (czechNFD s)) = _
  exact czechNFC_of_markfree _ (fun c hc => ((mem_RemoveFunc _ _ _).mp hc).2)

/-- On the excerpt `normalizeString` is idempotent. -/
theorem czech_idempotent (s : GoString) :
    normalizeString czechLib (normalizeString czechLib s) = normalizeString czechLib s := by
  rw [czech_normalizeString s, czech_normalizeString]
  have hund : ∀ c ∈ RemoveFunc (isMn czechLib) (czechNFD s),
      czechPairs.find? (fun x => x.1 == c) = none :=
    fun c hc => czechNFD_undecomposable s c ((mem_RemoveFunc _ _ _).mp hc).1
  rw [czechNFD_of_undecomposable _ hund]
  exact RemoveFunc_of_none _ _ (fun c hc => ((mem_RemoveFunc _ _ _).mp hc).2)

/-- On the excerpt `normalizeString` creates neither a space nor a separator. -/
theorem czech_fresh (s : GoString) (c : Char) (hc : c ∈ normalizeString czechLib s)
    (hsp : c = ' ' ∨ c = '/') : c ∈ s := by
  rw [czech_normalizeString] at hc
  have hc' := ((mem_RemoveFunc _ _ _).mp hc).1
  unfold czechNFD at hc'
  rw [List.mem_flatMap] at hc'
  obtain ⟨a, ha, hca⟩ := hc'
  rcases czechDecompose_cases a with h | ⟨e, he, -, h⟩
  · rw [h, List.mem_singleton] at hca
    rw [hca]
    exact ha
  · obtain ⟨-, -, -, -, -, -, h1, h2, h3, h4⟩ := czechPairs_facts e he
    rw [h] at hca
    simp only [List.mem_cons, List.mem_singleton, List.not_mem_nil, or_false] at hca
    rcases hca with rfl | rfl <;> rcases hsp with h | h
    · exact absurd h h1
    · exact absurd h h3
    · exact absurd h h2
    · exact absurd h h4

/-- On the excerpt the NFC form of a string without marks has no mark. -/
theorem czech_nfc_markfree (s : GoString) (hs : ∀ c ∈ s, isMn czechLib c = false) :
    ∀ c ∈ czechLib.nfc s, isMn czechLib c = false := by
  show ∀ c ∈ czechNFC s, isMn czechLib c = false
  rw [czechNFC_of_markfree s hs]
  exact hs

/-! ## Key derivation -/

/-- The base name without its spaces holds no space. -/
theorem space_not_mem_stripped (p : GoString) : ' ' ∉ ReplaceAll (Base p) ' ' [] := by
  intro h
  exact ((mem_ReplaceAll_nil _ _ _).mp h).2 rfl

/-- The base name without its spaces holds no separator, unless it is the root.
-/
theorem stripped_sep (p : GoString) :
    '/' ∉ ReplaceAll (Base p) ' ' [] ∨ ReplaceAll (Base p) ' ' [] = ['/'] := by
  rcases Base_sep p with h | h
  · left
    intro hm
    exact h ((mem_ReplaceAll_nil _ _ _).mp hm).1
  · right
    rw [h]
    decide

/-- Claim C2, counterexample: the base name of the path `" "` is one space, its
key is the empty string, and the key derived from the empty string is `"."`
(`filepath.Base` of the empty path), so deriving again changes the key. -/
theorem ocrFilename_not_idempotent :
    ocrFilename czechLib " ".toList = [] ∧
    ocrFilename czechLib (ocrFilename czechLib " ".toList) = ".".toList ∧
    ocrFilename czechLib (ocrFilename czechLib " ".toList) ≠ ocrFilename czechLib " ".toList := by
  decide

/-- Claim C2, amended: for every path whose key is not empty, taking the base
name and removing the spaces leave the key as it is, so that deriving the key
of the key only normalises it once more, and the key is a fixed point of the
derivation exactly when `normalizeString` leaves it unchanged. The Unicode
library is a parameter, assumed to create neither a space nor a separator
(`hfresh`) and to leave the one-rune string `/` as it is (`hroot`). -/
theorem ocrFilename_rederive (L : TextLib)
    (hfresh : ∀ s c, c ∈ normalizeString L s → c = ' ' ∨ c = '/' → c ∈ s)
    (hroot : normalizeString L ['/'] = ['/'])
    (p : GoString) (hkey : ocrFilename L p ≠ []) :
    Base (ocrFilename L p) = ocrFilename L p ∧
    ReplaceAll (ocrFilename L p) ' ' [] = ocrFilename L p ∧
    ocrFilename L (ocrFilename L p) = normalizeString L (ocrFilename L p) ∧
    (ocrFilename L (ocrFilename L p) = ocrFilename L p ↔
      normalizeString L (ocrFilename L p) = ocrFilename L p) := by
  have hsp : ' ' ∉ ocrFilename L p := fun h =>
    space_not_mem_stripped p (hfresh _ _ h (Or.inl rfl))
  have hbase : Base (ocrFilename L p) = ocrFilename L p := by
    rcases stripped_sep p with h | h
    · exact Base_fix _ hkey (fun hm => h (hfresh _ _ hm (Or.inr rfl)))
    · have hk : ocrFilename L p = ['/'] := by
        show normalizeString L (ReplaceAll (Base p) ' ' []) = ['/']
        rw [h, hroot]
      rw [hk]
      exact Base_slash
  have hstrip := ReplaceAll_nil_of_not_mem _ _ hsp
  have hre : ocrFilename L (ocrFilename L p) = normalizeString L (ocrFilename L p) := by
    show normalizeString L (ReplaceAll (Base (ocrFilename L p)) ' ' []) = _
    rw [hbase, hstrip]
  exact ⟨hbase, hstrip, hre, by rw [hre]⟩

/-- Claim C2, witness: the amended statement for the excerpt of the Unicode
data at `scans/café report.tif`, whose key is `cafereport.tif`. -/
theorem ocrFilename_rederive_witness :
    ocrFilename czechLib "scans/café report.tif".toList = "cafereport.tif".toList ∧
    ocrFilename czechLib (ocrFilename czechLib "scans/café report.tif".toList)
      = normalizeString czechLib (ocrFilename czechLib "scans/café report.tif".toList) :=
  ⟨by decide,
   (ocrFilename_rederive czechLib czech_fresh (by decide)
    "scans/café report.tif".toList (by decide)).2.2.1⟩

/-- Claim C3, counterexample: only the rune U+0020 is replaced, so the tab of
the base name `a<TAB>b.tif` is still in the key, which is the base name itself. -/
theorem ocrFilename_keeps_tab :
    ocrFilename czechLib "a\tb.tif".toList = "a\tb.tif".toList ∧
    Char.ofNat 9 ∈ ocrFilename czechLib "a\tb.tif".toList ∧
    Char.isWhitespace (Char.ofNat 9) = true := by
  decide

/-- Claim C3, amended: for every path the key contains no space U+0020, every
space of the base name being removed; other white space is kept. The Unicode
library is a parameter, assumed not to create a space (`hspace`). -/
theorem ocrFilename_no_space (L : TextLib)
    (hspace : ∀ s, ' ' ∈ normalizeString L s → ' ' ∈ s) (p : GoString) :
    ' ' ∉ ocrFilename L p :=
  fun h => space_not_mem_stripped p (hspace _ h)

/-- Claim C3, witness: the amended statement for the excerpt of the Unicode
data at `scans/café report.tif`, whose base name holds a space. -/
theorem ocrFilename_no_space_witness :
    ' ' ∈ Base "scans/café report.tif".toList ∧
    ' ' ∉ ocrFilename czechLib "scans/café report.tif".toList :=
  ⟨by decide,
   ocrFilename_no_space czechLib (fun s h => czech_fresh s ' ' h (Or.inl rfl))
    "scans/café report.tif".toList⟩

/-- Claim C4, counterexample: the base name is `a`, 31 tone marks U+302E and
`.jpg`. The tone mark is a non-starter and not a nonspacing mark, so
`RemoveFunc` keeps all 31, and the stream-safe NFC puts a combining grapheme
joiner U+034F, a nonspacing mark, before the last one: the key holds a
nonspacing mark. -/
theorem ocrFilename_keeps_joiner :
    ocrFilename toneLib ('a' :: List.replicate 31 toneMark ++ ".jpg".toList)
      = 'a' :: List.replicate 30 toneMark ++ graphemeJoiner :: toneMark :: ".jpg".toList ∧
    graphemeJoiner ∈ ocrFilename toneLib ('a' :: List.replicate 31 toneMark ++ ".jpg".toList) ∧
    isMn toneLib graphemeJoiner = true := by
  decide

/-- Claim C4, amended: for every path the key is the NFC form of the NFD form
of the base name without spaces with every nonspacing mark deleted, and the
string handed to the NFC step holds no nonspacing mark; so a nonspacing mark
of the key is none of that string: the NFC step has emitted it. The key of
`café report.tif` is `cafereport.tif`. -/
theorem ocrFilename_marks_removed (L : TextLib) (p : GoString) :
    (∀ c ∈ RemoveFunc (isMn L) (L.nfd (ReplaceAll (Base p) ' ' [])), isMn L c = false) ∧
    ocrFilename L p
      = L.nfc ((L.nfd (ReplaceAll (Base p) ' ' [])).filter (fun r => !isMn L r)) ∧
    (∀ c ∈ ocrFilename L p, isMn L c = true →
      c ∈ L.nfc (RemoveFunc (isMn L) (L.nfd (ReplaceAll (Base p) ' ' []))) ∧
      c ∉ RemoveFunc (isMn L) (L.nfd (ReplaceAll (Base p) ' ' []))) ∧
    ocrFilename czechLib "café report.tif".toList = "cafereport.tif".toList := by
  have hfree : ∀ c ∈ RemoveFunc (isMn L) (L.nfd (ReplaceAll (Base p) ' ' [])),
      isMn L c = false := fun c hc => ((mem_RemoveFunc _ _ _).mp hc).2
  refine ⟨hfree, rfl, ?_, by decide⟩
  intro c hc hmn
  refine ⟨hc, fun hmem => ?_⟩
  rw [hfree c hmem] at hmn
  exact absurd hmn (by simp)

/-! ## The request body -/

/-- Assignment keeps the keys and appends a new one. -/
theorem mapKeys_mapSet (m : JMap) (k : GoString) (v : JVal) :
    mapKeys (mapSet m k v) = if k ∈ mapKeys m then mapKeys m else mapKeys m ++ [k] := by
  induction m with
  | nil => simp [mapSet, mapKeys]
  | cons kv rest ih =>
    obtain ⟨k', v'⟩ := kv
    unfold mapKeys at ih ⊢
    by_cases h : k' = k
    · simp [mapSet, h]
    · have h' : ¬ k = k' := fun e => h e.symm
      simp only [mapSet, h, if_false, List.map_cons, ih, List.mem_cons, h', false_or]
      split <;> simp

/-- Assigning `v` to a map whose values are all `v` gives such a map. -/
theorem mapSet_values (m : JMap) (k : GoString) (v : JVal)
    (hm : ∀ kv ∈ m, kv.2 = v) : ∀ kv ∈ mapSet m k v, kv.2 = v := by
  induction m with
  | nil => simp [mapSet]
  | cons e rest ih =>
    obtain ⟨k', v'⟩ := e
    have hrest : ∀ kv ∈ rest, kv.2 = v := fun kv h => hm kv (List.mem_cons_of_mem _ h)
    by_cases h : k' = k
    · intro kv hkv
      simp only [mapSet, h, if_true, List.mem_cons] at hkv
      rcases hkv with rfl | hkv
      · rfl
      · exact hrest kv hkv
    · intro kv hkv
      simp only [mapSet, h, if_false, List.mem_cons] at hkv
      rcases hkv with rfl | hkv
      · exact hm _ (List.mem_cons_self _ _)
      · exact ih hrest kv hkv

/-- Reading a key right after assigning it gives the assigned value. -/
theorem mapGet_mapSet_self (m : JMap) (k : GoString) (v : JVal) :
    mapGet (mapSet m k v) k = some v := by
  induction m with
  | nil => simp [mapSet, mapGet]
  | cons e rest ih =>
    obtain ⟨k', v'⟩ := e
    by_cases h : k' = k
    · simp [mapSet, mapGet, h]
    · simp [mapSet, mapGet, h, ih]

/-- Invariant of the loop building `imgs`: the keys are distinct, the values
null, and the keys are those present before together with the keys of the files.
-/
theorem imagesFold_spec (L : TextLib) (files : List GoString) (acc : JMap)
    (hnd : (mapKeys acc).Nodup) (hnull : ∀ kv ∈ acc, kv.2 = JVal.null) :
    let r := files.foldl (fun imgs file => mapSet imgs (ocrFilename L file) JVal.null) acc
    (mapKeys r).Nodup ∧ (∀ kv ∈ r, kv.2 = JVal.null) ∧
    (∀ k, k ∈ mapKeys r ↔ k ∈ mapKeys acc ∨ ∃ f ∈ files, ocrFilename L f = k) := by
  induction files generalizing acc with
  | nil => exact ⟨hnd, hnull, fun k => by simp⟩
  | cons f rest ih =>
    have hnd' : (mapKeys (mapSet acc (ocrFilename L f) JVal.null)).Nodup := by
      rw [mapKeys_mapSet]
      split
      · exact hnd
      · rename_i hk
        exact List.Nodup.append hnd (List.nodup_singleton _) (by simpa using hk)
    have hnull' := mapSet_values acc (ocrFilename L f) JVal.null hnull
    obtain ⟨h1, h2, h3⟩ := ih _ hnd' hnull'
    refine ⟨h1, h2, ?_⟩
    intro k
    rw [List.foldl_cons, h3 k, mapKeys_mapSet]
    split
    · rename_i hk
      constructor
      · rintro (h | ⟨g, hg, rfl⟩)
        · exact Or.inl h
        · exact Or.inr ⟨g, List.mem_cons_of_mem _ hg, rfl⟩
      · rintro (h | ⟨g, hg, rfl⟩)
        · exact Or.inl h
        · rcases List.mem_cons.mp hg with rfl | hg
          · exact Or.inl hk
          · exact Or.inr ⟨g, hg, rfl⟩
    · constructor
      · rintro (h | ⟨g, hg, rfl⟩)
        · rcases List.mem_append.mp h with h | h
          · exact Or.inl h
          · exact Or.inr ⟨f, List.mem_cons_self _ _, (List.mem_singleton.mp h).symm⟩
        · exact Or.inr ⟨g, List.mem_cons_of_mem _ hg, rfl⟩
      · rintro (h | ⟨g, hg, rfl⟩)
        · exact Or.inl (List.mem_append_left _ h)
        · rcases List.mem_cons.mp hg with rfl | hg
          · exact Or.inl (List.mem_append_right _ (List.mem_singleton_self _))
          · exact Or.inr ⟨g, hg, rfl⟩

/-- The number of entries of `imgs` is the number of distinct keys of the files.
-/
theorem imagesMap_length (L : TextLib) (files : List GoString) :
    (imagesMap L files).length = ((files.map (ocrFilename L)).toFinset).card := by
  obtain ⟨h1, -, h3⟩ := imagesFold_spec L files [] (by simp [mapKeys]) (by simp)
  have hlen : (imagesMap L files).length = (mapKeys (imagesMap L files)).length := by
    simp [mapKeys]
  have h1' : (mapKeys (imagesMap L files)).Nodup := h1
  rw [hlen, ← List.toFinset_card_of_nodup h1']
  congr 1
  ext k
  have := h3 k
  simp only [mapKeys, List.map_nil, List.not_mem_nil, false_or] at this
  simp only [List.mem_toFinset, List.mem_map]
  exact this

/-- Claim C5: the request body that `postPreprocessRequest` builds and hands
to the client is `requestData`, whatever the client, and its entry `images` is
a map whose keys are exactly the derived keys of the files, each once and each
mapped to null; it has as many entries as files when the keys of the files are
pairwise distinct, and fewer when two files derive one key. -/
theorem images_map_keys (L : TextLib) (engineID : Int) (files : List GoString) :
    (∀ client : JMap → HttpResult (Option JMap),
      postPreprocessRequest L engineID files client
        = postPreprocessRequest L engineID files
            (fun _ => client (requestData L engineID files))) ∧
    mapGet (requestData L engineID files) "images".toList
      = some (JVal.obj (imagesMap L files)) ∧
    (mapKeys (imagesMap L files)).Nodup ∧
    (∀ k, k ∈ mapKeys (imagesMap L files) ↔ ∃ f ∈ files, ocrFilename L f = k) ∧
    (∀ kv ∈ imagesMap L files, kv.2 = JVal.null) ∧
    ((files.map (ocrFilename L)).Nodup → (imagesMap L files).length = files.length) ∧
    (¬ (files.map (ocrFilename L)).Nodup → (imagesMap L files).length < files.length) := by
  obtain ⟨h1, h2, h3⟩ := imagesFold_spec L files [] (by simp [mapKeys]) (by simp)
  refine ⟨fun _ => rfl, mapGet_mapSet_self _ _ _, h1, ?_, h2, ?_, ?_⟩
  · intro k
    have := h3 k
    simpa [mapKeys] using this
  · intro hnd
    rw [imagesMap_length, List.toFinset_card_of_nodup hnd, List.length_map]
  · intro hnd
    rw [imagesMap_length, List.card_toFinset]
    have hsub := List.dedup_sublist (files.map (ocrFilename L))
    have hle := hsub.length_le
    rcases Nat.lt_or_ge (List.dedup (files.map (ocrFilename L))).length
      (files.map (ocrFilename L)).length with h | h
    · simpa using h
    · exfalso
      have heq := hsub.eq_of_length_le h
      exact hnd (heq ▸ List.nodup_dedup _)

/-- Claim C5, witness: three files of which two derive the key `ab.jpg` give
fewer than three entries, two files with distinct keys give two. -/
theorem images_map_keys_witness :
    (imagesMap czechLib ["a b.jpg".toList, "d/ab.jpg".toList, "c.tif".toList]).length < 3 ∧
    (imagesMap czechLib ["a.jpg".toList, "b.jpg".toList]).length = 2 :=
  ⟨(images_map_keys czechLib 1 ["a b.jpg".toList, "d/ab.jpg".toList, "c.tif".toList]).2.2.2.2.2.2
      (by decide),
   (images_map_keys czechLib 1 ["a.jpg".toList, "b.jpg".toList]).2.2.2.2.2.1 (by decide)⟩

/-! ## Status polling and exit codes -/

/-- The loop of a poll cycle, when `request_status` holds an object for every
key: `done` records whether every key reports `PROCESSED`, `doneCount` how many
do. -/
theorem pollFiles_wellformed (L : TextLib) (respData statuses : JMap)
    (hst : mapGet respData "request_status".toList = some (JVal.obj statuses))
    (files : List GoString) (v : PollVars)
    (hall : ∀ f ∈ files, ∃ img, mapGet statuses (ocrFilename L f) = some (JVal.obj img)) :
    pollFiles L respData v files
      = some { done := v.done && files.all (fun f => reportsProcessed statuses (ocrFilename L f)),
               doneCount := v.doneCount
                 + files.countP (fun f => reportsProcessed statuses (ocrFilename L f)) } := by
  induction files generalizing v with
  | nil => simp [pollFiles]
  | cons f rest ih =>
    obtain ⟨img, himg⟩ := hall f (List.mem_cons_self _ _)
    have hrest : ∀ g ∈ rest, ∃ img, mapGet statuses (ocrFilename L g) = some (JVal.obj img) :=
      fun g hg => hall g (List.mem_cons_of_mem _ hg)
    have hstep : pollFile L respData v f
        = if reportsProcessed statuses (ocrFilename L f) then
            some { v with doneCount := v.doneCount + 1 }
          else some { v with done := false } := by
      unfold pollFile reportsProcessed
      rw [hst]
      simp only [himg]
    rw [pollFiles, hstep]
    by_cases hrp : reportsProcessed statuses (ocrFilename L f) = true
    · simp only [hrp, if_true]
      rw [ih _ hrest]
      simp [hrp, List.countP_cons]
      omega
    · have hrp' : reportsProcessed statuses (ocrFilename L f) = false := by simpa using hrp
      simp only [hrp', Bool.false_eq_true, if_false]
      rw [ih _ hrest]
      simp [hrp', List.countP_cons]

/-- A poll cycle whose answer holds an object for every key leaves the loop
exactly when every key reports `PROCESSED`. -/
theorem pollCycle_wellformed (L : TextLib) (respData statuses : JMap)
    (files : List GoString)
    (hst : mapGet respData "request_status".toList = some (JVal.obj statuses))
    (hall : ∀ f ∈ files, ∃ img, mapGet statuses (ocrFilename L f) = some (JVal.obj img)) :
    ∃ e, pollCycle L files (HttpResult.response 200 (some respData)) = Outcome.ret e ∧
      (e.leave = true ↔ ∀ f ∈ files, reportsProcessed statuses (ocrFilename L f) = true) := by
  have hrun := pollFiles_wellformed L respData statuses hst files
    { done := true, doneCount := 0 } hall
  refine ⟨{ leave := files.all (fun f => reportsProcessed statuses (ocrFilename L f)),
            doneCount := 0 + files.countP (fun f => reportsProcessed statuses (ocrFilename L f)),
            retryLogged := decide (0 + files.countP
              (fun f => reportsProcessed statuses (ocrFilename L f)) ≠ files.length) }, ?_, ?_⟩
  · unfold pollCycle
    simp only [ne_eq, not_true_eq_false, if_false]
    rw [hrun]
    simp
  · simp

/-- A poll cycle whose answer has no entry `request_status` leaves the loop with
no file counted as done. -/
theorem pollCycle_missing_status (L : TextLib) (respData : JMap) (files : List GoString)
    (hst : mapGet respData "request_status".toList = none) :
    pollCycle L files (HttpResult.response 200 (some respData))
      = Outcome.ret { leave := true, doneCount := 0,
                      retryLogged := decide (0 ≠ files.length) } := by
  have hfiles : ∀ (fs : List GoString) (v : PollVars), pollFiles L respData v fs = some v := by
    intro fs
    induction fs with
    | nil => intro v; rfl
    | cons f rest ih =>
      intro v
      have : pollFile L respData v f = some v := by
        unfold pollFile
        rw [hst]
      rw [pollFiles, this]
      exact ih v
  unfold pollCycle
  simp only [ne_eq, not_true_eq_false, if_false]
  rw [hfiles]

/-- The polling of the end-to-end scenario: both keys report `PROCESSING` in
the first answer and `PROCESSED` in the second; the loop is left in the second
cycle. -/
theorem waitForOcrFinish_scenario :
    waitForOcrFinish czechLib ["a.tif".toList, "b.jpg".toList]
      [HttpResult.response 200 (some [("request_status".toList, JVal.obj
         [("a.tif".toList, JVal.obj [("state".toList, JVal.str "PROCESSING".toList)]),
          ("b.jpg".toList, JVal.obj [("state".toList, JVal.str "PROCESSING".toList)])])]),
       HttpResult.response 200 (some [("request_status".toList, JVal.obj
         [("a.tif".toList, JVal.obj [("state".toList, JVal.str "PROCESSED".toList)]),
          ("b.jpg".toList, JVal.obj [("state".toList, JVal.str "PROCESSED".toList)])])])]
      = Outcome.ret (some 2) := by
  decide

/-- Claim C8, amended: the exit code tells the class of a fatal failure only. A
transport failure exits with 1; every answer with a status other than 200
exits with 6, in polling and in submission alike, whatever the status; a
status answer that does not decode exits with 7 and a submission answer that
does not decode with 6. Not found and not owned (polling), engine not found
and malformed submission (submission) differ in the message only. -/
theorem exit_code_by_class (L : TextLib) (engineID : Int) (files : List GoString)
    (status : Nat) (body : Option JMap) (timeout : Bool) (hstatus : status ≠ 200) :
    (pollCycle L files (HttpResult.transportError timeout)).exitCode = some 1 ∧
    (postPreprocessRequest L engineID files
      (fun _ => HttpResult.transportError timeout)).exitCode = some 1 ∧
    (pollCycle L files (HttpResult.response status body)).exitCode = some 6 ∧
    (postPreprocessRequest L engineID files
      (fun _ => HttpResult.response status body)).exitCode = some 6 ∧
    (pollCycle L files (HttpResult.response 200 none)).exitCode = some 7 ∧
    (postPreprocessRequest L engineID files
      (fun _ => HttpResult.response 200 none)).exitCode = some 6 ∧
    (pollCycle L files (HttpResult.response 404 body)).exitMsg
      ≠ (pollCycle L files (HttpResult.response 401 body)).exitMsg ∧
    (postPreprocessRequest L engineID files (fun _ => HttpResult.response 404 body)).exitMsg
      ≠ (postPreprocessRequest L engineID files
          (fun _ => HttpResult.response 422 body)).exitMsg := by
  refine ⟨?_, ?_, ?_, ?_, ?_, ?_, ?_, ?_⟩
  · cases timeout <;> rfl
  · rfl
  · unfold pollCycle
    simp only [hstatus, ne_eq, not_false_eq_true, if_true]
    split_ifs <;> rfl
  · unfold postPreprocessRequest
    simp only [hstatus, ne_eq, not_false_eq_true, if_true]
    split_ifs <;> rfl
  · rfl
  · rfl
  · simp [pollCycle, Outcome.exitMsg]
  · simp [postPreprocessRequest, Outcome.exitMsg]

/-- Claim C8, witness: the amended statement at the status 503. -/
theorem exit_code_by_class_witness :
    503 ≠ 200 ∧
    (pollCycle czechLib [] (HttpResult.response 503 none)).exitCode = some 6 ∧
    (pollCycle czechLib [] (HttpResult.response 200 none)).exitCode = some 7 :=
  ⟨by decide, (exit_code_by_class czechLib 1 [] 503 none false (by decide)).2.2.1,
   (exit_code_by_class czechLib 1 [] 503 none false (by decide)).2.2.2.2.1⟩

/-! ## Upload -/

/-- The path of a transcoded file is not empty. -/
theorem jpgPath_ne_nil (file : GoString) : jpgPath file ≠ [] := by
  unfold jpgPath
  intro h
  have := congrArg List.length h
  simp at this

/-- The three ways `convertTiffToJpg` ends: pass-through, failure, success. -/
theorem convertTiffToJpg_cases (L : TextLib) (E : Env) (fs : FS) (file : GoString) :
    (¬ isTiffPath L file ∧ convertTiffToJpg L E fs file = (file, fs)) ∨
    (isTiffPath L file ∧ (convertTiffToJpg L E fs file).1 = [] ∧
      ((convertTiffToJpg L E fs file).2 = fs ∨
        ∃ c, (convertTiffToJpg L E fs file).2 = fs.write (jpgPath file) c)) ∨
    (isTiffPath L file ∧ ∃ c, convertTiffToJpg L E fs file
        = (jpgPath file, fs.write (jpgPath file) c)) := by
  by_cases ht : isTiffPath L file
  · right
    have hif : convertTiffToJpg L E fs file =
        match osOpen E fs file with
        | none => ([], fs)
        | some bytes =>
          match E.tiffDecode bytes with
          | none => ([], fs)
          | some decode =>
            if E.canWrite (jpgPath file) then
              if (E.jpegEncode decode).2 then
                (jpgPath file, fs.write (jpgPath file) (E.jpegEncode decode).1)
              else ([], fs.write (jpgPath file) (E.jpegEncode decode).1)
            else ([], fs) := by
      unfold convertTiffToJpg jpgPath
      simp only [isTiffPath] at ht
      simp only [ht, if_true]
    rw [hif]
    split
    · exact Or.inl ⟨ht, rfl, Or.inl rfl⟩
    · split
      · exact Or.inl ⟨ht, rfl, Or.inl rfl⟩
      · split_ifs
        · exact Or.inr ⟨ht, _, rfl⟩
        · exact Or.inl ⟨ht, rfl, Or.inr ⟨_, rfl⟩⟩
        · exact Or.inl ⟨ht, rfl, Or.inl rfl⟩
  · left
    refine ⟨ht, ?_⟩
    unfold convertTiffToJpg
    simp only [isTiffPath] at ht
    simp only [ht, if_false]

/-- The state after the loop body, once the file to send is opened. -/
theorem uploadStep_eq (L : TextLib) (E : Env) (requestId : GoString)
    (outcomes : Nat → HttpResult Unit)
    (i : Nat) (st : UploadEnd) (file f : GoString) (fsc : FS) (bytes : Content)
    (hf : (if (convertTiffToJpg L E st.fs file).1 = [] then file
            else (convertTiffToJpg L E st.fs file).1) = f)
    (hfs : (convertTiffToJpg L E st.fs file).2 = fsc)
    (hopen : osOpen E fsc f = some bytes)
    (hurl : E.newRequest (uploadURL E requestId (ocrFilename L file)) = true) :
    uploadStep L E requestId outcomes i st file
      = some { uploadedFiles :=
                 st.uploadedFiles ++ (if uploadOk (outcomes i) then [file] else []),
               fs := if file ≠ f then fsc.remove f else fsc,
               requests := st.requests ++ [⟨ocrFilename L file, f, bytes⟩] } := by
  unfold uploadStep
  simp only [hf, hfs, hopen, hurl, if_true]
  cases outcomes i with
  | transportError t => simp [uploadOk]
  | response status body =>
    by_cases hs : status = 200
    · simp [uploadOk, hs]
    · simp [uploadOk, hs]

/-- The loop body does not panic on a file that can be opened and whose
transcoded sibling, for a TIFF file, is another path that can be read. -/
theorem uploadStep_ready (L : TextLib) (E : Env) (requestId : GoString)
    (outcomes : Nat → HttpResult Unit)
    (i : Nat) (st : UploadEnd) (file : GoString)
    (hopen : osOpen E st.fs file ≠ none)
    (hurl : E.newRequest (uploadURL E requestId (ocrFilename L file)) = true)
    (htiff : isTiffPath L file → jpgPath file ≠ file ∧ E.canRead (jpgPath file) = true) :
    ∃ st', uploadStep L E requestId outcomes i st file = some st' ∧
      st'.uploadedFiles
        = st.uploadedFiles ++ (if uploadOk (outcomes i) then [file] else []) ∧
      st'.requests.map UploadRequest.key
        = st.requests.map UploadRequest.key ++ [ocrFilename L file] ∧
      ∀ g, (isTiffPath L file → g ≠ jpgPath file) → st'.fs g = st.fs g := by
  obtain ⟨bytes, hbytes⟩ := Option.ne_none_iff_exists'.mp hopen
  rcases convertTiffToJpg_cases L E st.fs file with ⟨hnt, hc⟩ | ⟨ht, h1, h2⟩ | ⟨ht, c, hc⟩
  · refine ⟨_, uploadStep_eq L E requestId outcomes i st file file st.fs bytes ?_ ?_ hbytes hurl, rfl, ?_, ?_⟩
    · rw [hc]; simp
    · rw [hc]
    · simp
    · intro g _
      simp
  · obtain ⟨hne, -⟩ := htiff ht
    have hread : E.canRead file = true := by
      unfold osOpen at hbytes
      by_contra hr
      simp [hr] at hbytes
    rcases h2 with h2 | ⟨c, h2⟩
    · refine ⟨_, uploadStep_eq L E requestId outcomes i st file file st.fs bytes ?_ h2 hbytes hurl, rfl, ?_, ?_⟩
      · rw [h1]; simp
      · simp
      · intro g _
        simp
    · have hopen' : osOpen E (st.fs.write (jpgPath file) c) file = some bytes := by
        unfold osOpen FS.write at *
        simp only [hread, if_true] at hbytes ⊢
        simp [hne.symm, hbytes]
      refine ⟨_, uploadStep_eq L E requestId outcomes i st file file _ bytes ?_ h2 hopen' hurl, rfl, ?_, ?_⟩
      · rw [h1]; simp
      · simp
      · intro g hg
        have := hg ht
        simp [FS.write, this]
  · obtain ⟨hne, hr⟩ := htiff ht
    have hopen' : osOpen E (st.fs.write (jpgPath file) c) (jpgPath file) = some c := by
      simp [osOpen, FS.write, hr]
    refine ⟨_, uploadStep_eq L E requestId outcomes i st file (jpgPath file) _ c ?_ ?_ hopen' hurl,
      rfl, ?_, ?_⟩
    · rw [hc]; simp [jpgPath_ne_nil]
    · rw [hc]
    · simp
    · intro g hg
      have := hg ht
      simp [FS.remove, FS.write, hne.symm, this]

/-- Unfolding of `succeededFrom` at a non-empty list. -/
theorem succeededFrom_cons (outcomes : Nat → HttpResult Unit) (i : Nat) (file : GoString)
    (rest : List GoString) :
    succeededFrom outcomes i (file :: rest)
      = (if uploadOk (outcomes i) then [file] else []) ++ succeededFrom outcomes (i + 1) rest := by
  rw [succeededFrom]
  split_ifs <;> rfl

/-- The loop does not panic on a list that is ready, and returns the files whose
upload succeeded. -/
theorem uploadLoop_ready (L : TextLib) (E : Env) (requestId : GoString)
    (outcomes : Nat → HttpResult Unit)
    (files : List GoString) (i : Nat) (st : UploadEnd)
    (h : UploadReady L E st.fs files requestId) :
    ∃ e, uploadLoop L E requestId outcomes i st files = some e ∧
      e.uploadedFiles = st.uploadedFiles ++ succeededFrom outcomes i files ∧
      e.requests.map UploadRequest.key
        = st.requests.map UploadRequest.key ++ files.map (ocrFilename L) := by
  induction files generalizing i st with
  | nil => exact ⟨st, rfl, by simp [succeededFrom], by simp⟩
  | cons file rest ih =>
    obtain ⟨hopen, hurl, htiff⟩ := h file (List.mem_cons_self _ _)
    have htiff' : isTiffPath L file → jpgPath file ≠ file ∧ E.canRead (jpgPath file) = true :=
      fun ht => ⟨fun e => (htiff ht).1 (by rw [e]; exact List.mem_cons_self _ _), (htiff ht).2⟩
    obtain ⟨st', hstep, hup, hreq, hfs⟩ :=
      uploadStep_ready L E requestId outcomes i st file hopen hurl htiff'
    have hready : UploadReady L E st'.fs rest requestId := by
      intro g hg
      obtain ⟨hgo, hgu, hgt⟩ := h g (List.mem_cons_of_mem _ hg)
      have hsame : st'.fs g = st.fs g :=
        hfs g (fun ht e => (htiff ht).1 (by rw [← e]; exact List.mem_cons_of_mem _ hg))
      refine ⟨?_, hgu, fun ht => ⟨fun hm => (hgt ht).1 (List.mem_cons_of_mem _ hm), (hgt ht).2⟩⟩
      unfold osOpen at hgo ⊢
      rw [hsame]
      exact hgo
    obtain ⟨e, he, heu, her⟩ := ih (i + 1) st' hready
    refine ⟨e, ?_, ?_, ?_⟩
    · simp only [uploadLoop, hstep]
      exact he
    · rw [heu, hup, succeededFrom_cons, List.append_assoc]
    · rw [her, hreq]
      simp

/-- The files whose upload succeeded form a sublist of the input. -/
theorem succeededFrom_sublist (outcomes : Nat → HttpResult Unit) (i : Nat)
    (files : List GoString) : (succeededFrom outcomes i files).Sublist files := by
  induction files generalizing i with
  | nil => exact List.Sublist.slnil
  | cons f rest ih =>
    unfold succeededFrom
    split_ifs
    · exact (ih (i + 1)).cons₂ f
    · exact (ih (i + 1)).cons f

/-- A file is among the succeeded ones exactly when it stands at a position
whose upload succeeded. -/
theorem mem_succeededFrom (outcomes : Nat → HttpResult Unit) (i : Nat)
    (files : List GoString) (f : GoString) :
    f ∈ succeededFrom outcomes i files ↔
      ∃ n, files[n]? = some f ∧ uploadOk (outcomes (i + n)) = true := by
  induction files generalizing i with
  | nil => simp [succeededFrom]
  | cons g rest ih =>
    unfold succeededFrom
    constructor
    · intro h
      have h' : (f = g ∧ uploadOk (outcomes i) = true) ∨
          f ∈ succeededFrom outcomes (i + 1) rest := by
        split_ifs at h with hok
        · rcases List.mem_cons.mp h with h | h
          · exact Or.inl ⟨h, hok⟩
          · exact Or.inr h
        · exact Or.inr h
      rcases h' with ⟨rfl, hok⟩ | h'
      · exact ⟨0, by simp, by simpa using hok⟩
      · obtain ⟨n, hn, hok⟩ := (ih (i + 1)).mp h'
        refine ⟨n + 1, by simpa using hn, ?_⟩
        have : i + (n + 1) = i + 1 + n := by omega
        rw [this]
        exact hok
    · rintro ⟨n, hn, hok⟩
      cases n with
      | zero =>
        simp only [List.getElem?_cons_zero, Option.some.injEq] at hn
        subst hn
        simp only [Nat.add_zero] at hok
        simp [hok]
      | succ m =>
        simp only [List.getElem?_cons_succ] at hn
        have hidx : i + (m + 1) = i + 1 + m := by omega
        rw [hidx] at hok
        have := (ih (i + 1)).mpr ⟨m, hn, hok⟩
        split_ifs
        · exact List.mem_cons_of_mem _ this
        · exact this

/-- What the loop body appends when it does not panic. -/
theorem uploadStep_some (L : TextLib) (E : Env) (requestId : GoString)
    (outcomes : Nat → HttpResult Unit)
    (i : Nat) (st st' : UploadEnd) (file : GoString)
    (h : uploadStep L E requestId outcomes i st file = some st') :
    st'.uploadedFiles
      = st.uploadedFiles ++ (if uploadOk (outcomes i) then [file] else []) ∧
    st'.requests.map UploadRequest.key
      = st.requests.map UploadRequest.key ++ [ocrFilename L file] := by
  unfold uploadStep at h
  simp only at h
  generalize convertTiffToJpg L E st.fs file = conv at h
  generalize (if conv.1 = [] then file else conv.1) = f at h
  cases ho : osOpen E conv.2 f with
  | none => simp [ho] at h
  | some bytes =>
    simp only [ho] at h
    by_cases hurl : E.newRequest (uploadURL E requestId (ocrFilename L file)) = true
    swap
    · simp [hurl] at h
    simp only [hurl, if_true] at h
    cases hout : outcomes i with
    | transportError t =>
      simp only [hout, Option.some.injEq] at h
      subst h
      simp [uploadOk]
    | response status body =>
      simp only [hout] at h
      by_cases hs : status = 200
      · simp only [hs, ne_eq, not_true_eq_false, if_false, Option.some.injEq] at h
        subst h
        simp [uploadOk, hs]
      · simp only [hs, ne_eq, not_false_eq_true, if_true, Option.some.injEq] at h
        subst h
        simp [uploadOk, hs]

/-- What the loop returns when it does not panic. -/
theorem uploadLoop_some (L : TextLib) (E : Env) (requestId : GoString)
    (outcomes : Nat → HttpResult Unit)
    (files : List GoString) (i : Nat) (st e : UploadEnd)
    (h : uploadLoop L E requestId outcomes i st files = some e) :
    e.uploadedFiles = st.uploadedFiles ++ succeededFrom outcomes i files ∧
    e.requests.map UploadRequest.key
      = st.requests.map UploadRequest.key ++ files.map (ocrFilename L) := by
  induction files generalizing i st with
  | nil =>
    simp only [uploadLoop, Option.some.injEq] at h
    subst h
    simp [succeededFrom]
  | cons file rest ih =>
    rw [uploadLoop] at h
    cases hstep : uploadStep L E requestId outcomes i st file with
    | none => simp [hstep] at h
    | some st' =>
      simp only [hstep] at h
      obtain ⟨h1, h2⟩ := uploadStep_some L E requestId outcomes i st st' file hstep
      obtain ⟨h3, h4⟩ := ih (i + 1) st' h
      rw [h3, h1, h4, h2, succeededFrom_cons]
      simp

/-- The loop body changes the directory at most at the transcoded sibling of a
TIFF file. -/
theorem uploadStep_frame (L : TextLib) (E : Env) (requestId : GoString)
    (outcomes : Nat → HttpResult Unit)
    (i : Nat) (st st' : UploadEnd) (file : GoString)
    (h : uploadStep L E requestId outcomes i st file = some st') (g : GoString)
    (hg : isTiffPath L file → g ≠ jpgPath file) : st'.fs g = st.fs g := by
  have hopen : ∃ bytes, osOpen E (convertTiffToJpg L E st.fs file).2
      (if (convertTiffToJpg L E st.fs file).1 = [] then file
        else (convertTiffToJpg L E st.fs file).1) = some bytes := by
    cases ho : osOpen E (convertTiffToJpg L E st.fs file).2
      (if (convertTiffToJpg L E st.fs file).1 = [] then file
        else (convertTiffToJpg L E st.fs file).1) with
    | none =>
      unfold uploadStep at h
      simp only [ho] at h
      exact absurd h (by simp)
    | some bytes => exact ⟨bytes, rfl⟩
  obtain ⟨bytes, hbytes⟩ := hopen
  have hurl : E.newRequest (uploadURL E requestId (ocrFilename L file)) = true := by
    by_contra hu
    unfold uploadStep at h
    simp only [hbytes, hu] at h
    exact absurd h (by simp)
  have heq := uploadStep_eq L E requestId outcomes i st file _ _ bytes rfl rfl hbytes hurl
  rw [h, Option.some.injEq] at heq
  rw [heq]
  rcases convertTiffToJpg_cases L E st.fs file with ⟨-, hc⟩ | ⟨ht, h1, h2⟩ | ⟨ht, c, hc⟩
  · simp [hc]
  · rcases h2 with h2 | ⟨c, h2⟩
    · simp [h1, h2]
    · simp [h1, h2, FS.write, hg ht]
  · simp only [hc, jpgPath_ne_nil, if_false]
    split_ifs
    · simp [FS.remove, FS.write, hg ht]
    · simp [FS.write, hg ht]

/-- The loop changes the directory at most at the transcoded siblings of the
TIFF files. -/
theorem uploadLoop_frame (L : TextLib) (E : Env) (requestId : GoString)
    (outcomes : Nat → HttpResult Unit)
    (files : List GoString) (i : Nat) (st e : UploadEnd)
    (h : uploadLoop L E requestId outcomes i st files = some e) (g : GoString)
    (hg : ∀ f ∈ files, isTiffPath L f → g ≠ jpgPath f) : e.fs g = st.fs g := by
  induction files generalizing i st with
  | nil =>
    simp only [uploadLoop, Option.some.injEq] at h
    rw [h]
  | cons file rest ih =>
    rw [uploadLoop] at h
    cases hstep : uploadStep L E requestId outcomes i st file with
    | none => simp [hstep] at h
    | some st' =>
      simp only [hstep] at h
      rw [ih (i + 1) st' h (fun f hf => hg f (List.mem_cons_of_mem _ hf))]
      exact uploadStep_frame L E requestId outcomes i st st' file hstep g
        (hg file (List.mem_cons_self _ _))

/-- Writing at the start replaces the content when the old content is not longer
than the new. -/
theorem writeAtStart_short (fs : FS) (filename : GoString) (b : Content)
    (h : ((fs filename).getD []).length ≤ b.length) :
    writeAtStart fs filename b filename = some b := by
  simp [writeAtStart, FS.write, List.drop_eq_nil_of_le h]

/-- Whenever `uploadFilesForOcr` returns, it has made one request per file, in
order, and returns the files whose upload succeeded. -/
theorem upload_result_of_return (L : TextLib) (E : Env) (fs : FS) (files : List GoString)
    (requestId : GoString) (outcomes : Nat → HttpResult Unit) (e : UploadEnd)
    (h : uploadFilesForOcr L E fs files requestId outcomes = some e) :
    e.requests.map UploadRequest.key = files.map (ocrFilename L) ∧
    e.uploadedFiles = succeededFrom outcomes 0 files := by
  obtain ⟨h1, h2⟩ := uploadLoop_some L E requestId outcomes files 0 _ e h
  exact ⟨by simpa using h2, by simpa using h1⟩

/-- Whenever `uploadFilesForOcr` returns, the directory differs from the
initial one at most at the paths the TIFF files of the list are transcoded
to. -/
theorem upload_changes_only_jpg_siblings (L : TextLib) (E : Env) (fs : FS)
    (files : List GoString) (requestId : GoString) (outcomes : Nat → HttpResult Unit)
    (e : UploadEnd)
    (h : uploadFilesForOcr L E fs files requestId outcomes = some e) (g : GoString)
    (hg : ∀ f ∈ files, isTiffPath L f → g ≠ jpgPath f) : e.fs g = fs g :=
  uploadLoop_frame L E requestId outcomes files 0 _ e h g hg

/-- When every file of the list can be opened and has an upload URL that
`http.NewRequest` accepts, and no TIFF file of the list has its transcoded
sibling in the list or unreadable, then for every sequence of upload outcomes
`uploadFilesForOcr` returns; it has made one request per file, in order and
whatever the earlier outcomes; it returns exactly the input paths whose upload
was answered with status 200 without transport error, as a sublist of the
input in input order; and no path that transcoding wrote is in the result. -/
theorem upload_result (L : TextLib) (E : Env) (fs : FS) (files : List GoString)
    (requestId : GoString) (outcomes : Nat → HttpResult Unit)
    (hready : UploadReady L E fs files requestId) :
    ∃ e, uploadFilesForOcr L E fs files requestId outcomes = some e ∧
      e.requests.map UploadRequest.key = files.map (ocrFilename L) ∧
      e.uploadedFiles = succeededFrom outcomes 0 files ∧
      e.uploadedFiles.Sublist files ∧
      (∀ f, f ∈ e.uploadedFiles ↔
        ∃ n, files[n]? = some f ∧ uploadOk (outcomes n) = true) ∧
      (∀ f ∈ files, isTiffPath L f → jpgPath f ∉ e.uploadedFiles) := by
  obtain ⟨e, he, hup, hreq⟩ := uploadLoop_ready L E requestId outcomes files 0
    { uploadedFiles := [], fs := fs, requests := [] } hready
  have hup' : e.uploadedFiles = succeededFrom outcomes 0 files := by simpa using hup
  refine ⟨e, he, by simpa using hreq, hup', ?_, ?_, ?_⟩
  · rw [hup']
    exact succeededFrom_sublist outcomes 0 files
  · intro f
    rw [hup', mem_succeededFrom]
    simp
  · intro f hf ht hmem
    rw [hup'] at hmem
    exact (hready f hf).2.2 ht |>.1 ((succeededFrom_sublist outcomes 0 files).subset hmem)

/-- An instance of `upload_result`: a TIFF file and three JPEG files; the
second upload ends in a transport error, the third is answered with status
500, the others with 200, and the files returned are those at positions 0 and
3. -/
theorem upload_result_example :
    UploadReady czechLib plainEnv
      (fsOf [("a.tif".toList, "A".toList), ("b.jpg".toList, "B".toList),
             ("c.jpg".toList, "C".toList), ("d.jpg".toList, "D".toList)])
      ["a.tif".toList, "b.jpg".toList, "c.jpg".toList, "d.jpg".toList] "r1".toList ∧
    ∃ e, uploadFilesForOcr czechLib plainEnv
      (fsOf [("a.tif".toList, "A".toList), ("b.jpg".toList, "B".toList),
             ("c.jpg".toList, "C".toList), ("d.jpg".toList, "D".toList)])
      ["a.tif".toList, "b.jpg".toList, "c.jpg".toList, "d.jpg".toList] "r1".toList
      (fun i => if i = 1 then HttpResult.transportError false
                else if i = 2 then HttpResult.response 500 ()
                else HttpResult.response 200 ()) = some e ∧
      e.uploadedFiles = ["a.tif".toList, "d.jpg".toList] := by
  refine ⟨by decide, ?_⟩
  obtain ⟨e, he, -, hup, -⟩ := upload_result czechLib plainEnv
    (fsOf [("a.tif".toList, "A".toList), ("b.jpg".toList, "B".toList),
           ("c.jpg".toList, "C".toList), ("d.jpg".toList, "D".toList)])
    ["a.tif".toList, "b.jpg".toList, "c.jpg".toList, "d.jpg".toList] "r1".toList
    (fun i => if i = 1 then HttpResult.transportError false
              else if i = 2 then HttpResult.response 500 ()
              else HttpResult.response 200 ()) (by decide)
  refine ⟨e, he, ?_⟩
  rw [hup]
  decide

/-! ## Download -/

/-- One artifact fetch whose request is built: either the call ends in a
transport error, the fetch is recorded and the process exits with code 1; or
the fetch is recorded, the process goes on, and the directory changes only at
the output path of an answer with status 200. -/
theorem fetchArtifact_spec (L : TextLib) (E : Env) (requestId : GoString)
    (answers : Nat → Artifact → HttpResult Content) (i : Nat) (file : GoString)
    (a : Artifact) (st : DownloadEnd)
    (hurl : E.newRequest (downloadURL E requestId (ocrFilename L file) a) = true) :
    (isTransport (answers i a) = true ∧
      ∃ st', fetchArtifact L E requestId answers i file a st = (none, st') ∧
        st'.exit = some 1 ∧ st'.panicked = st.panicked ∧
        st'.fetches = st.fetches ++ [(i, ocrFilename L file, a)]) ∨
    (isTransport (answers i a) = false ∧
      ∃ b st', fetchArtifact L E requestId answers i file a st = (some b, st') ∧
        st'.exit = st.exit ∧ st'.panicked = st.panicked ∧
        st'.fetches = st.fetches ++ [(i, ocrFilename L file, a)] ∧
        (b = false → ∃ body, answers i a = HttpResult.response 200 body ∧
          E.canWrite (outputPath file a) = false) ∧
        (∀ q, (outputPath file a = q → ∀ body, answers i a ≠ HttpResult.response 200 body) →
          st'.fs q = st.fs q)) := by
  unfold fetchArtifact
  simp only [hurl, if_true]
  cases hans : answers i a with
  | transportError t => exact Or.inl ⟨rfl, _, rfl, rfl, rfl, rfl⟩
  | response status body =>
    right
    refine ⟨rfl, ?_⟩
    by_cases hs : status = 200
    · by_cases hw : E.canWrite (outputPath file a) = true
      · simp only [hs, hw, if_true]
        refine ⟨true, _, rfl, rfl, rfl, rfl, by simp, ?_⟩
        intro q hq
        have hne : q ≠ outputPath file a := by
          intro e
          exact hq e.symm body rfl
        simp [writeAtStart, FS.write, hne]
      · simp only [hs, hw, if_true, if_false]
        refine ⟨false, _, rfl, rfl, rfl, rfl, ?_, fun q _ => rfl⟩
        intro _
        exact ⟨body, rfl, by simp [hw]⟩
    · simp only [hs, if_false]
      exact ⟨true, _, rfl, rfl, rfl, rfl, by simp, fun q _ => rfl⟩

/-- Invariant of the download loop when every request is built: the process
does not panic; it runs to the end with no recorded fetch ended in a transport
error, or it exits with code 1 and the last recorded fetch is the only one
ended in a transport error. -/
theorem downloadLoop_stop (L : TextLib) (E : Env) (requestId : GoString)
    (answers : Nat → Artifact → HttpResult Content)
    (files : List GoString) (j : Nat) (st : DownloadEnd)
    (hurl : ∀ file ∈ files, ∀ a,
      E.newRequest (downloadURL E requestId (ocrFilename L file) a) = true)
    (hp : st.panicked = false) (he : st.exit = none)
    (hf : ∀ x ∈ st.fetches, isTransport (answers x.1 x.2.2) = false) :
    (downloadLoop L E requestId answers j st files).panicked = false ∧
    (((downloadLoop L E requestId answers j st files).exit = none ∧
        ∀ x ∈ (downloadLoop L E requestId answers j st files).fetches,
          isTransport (answers x.1 x.2.2) = false) ∨
      ((downloadLoop L E requestId answers j st files).exit = some 1 ∧
        ∃ pre x, (downloadLoop L E requestId answers j st files).fetches = pre ++ [x] ∧
          isTransport (answers x.1 x.2.2) = true ∧
          ∀ y ∈ pre, isTransport (answers y.1 y.2.2) = false)) := by
  induction files generalizing j st with
  | nil => exact ⟨hp, Or.inl ⟨he, hf⟩⟩
  | cons f rest ih =>
    have hrest : ∀ file ∈ rest, ∀ a,
        E.newRequest (downloadURL E requestId (ocrFilename L file) a) = true :=
      fun file hfile a => hurl file (List.mem_cons_of_mem _ hfile) a
    have hgood : ∀ (st0 st1 : DownloadEnd) (a : Artifact),
        (∀ x ∈ st0.fetches, isTransport (answers x.1 x.2.2) = false) →
        isTransport (answers j a) = false →
        st1.fetches = st0.fetches ++ [(j, ocrFilename L f, a)] →
        ∀ x ∈ st1.fetches, isTransport (answers x.1 x.2.2) = false := by
      intro st0 st1 a h0 ha hfe x hx
      rw [hfe, List.mem_append, List.mem_singleton] at hx
      rcases hx with hx | rfl
      · exact h0 x hx
      · exact ha
    rcases fetchArtifact_spec L E requestId answers j f Artifact.txt st
        (hurl f (List.mem_cons_self _ _) Artifact.txt) with
      ⟨ht, st1, e1, hx1, hp1, hf1⟩ | ⟨ht, b1, st1, e1, hx1, hp1, hf1, -, -⟩
    · have hrun : downloadLoop L E requestId answers j st (f :: rest) = st1 := by
        simp [downloadLoop, e1]
      rw [hrun]
      exact ⟨hp1.trans hp, Or.inr ⟨hx1, st.fetches, _, hf1, ht, hf⟩⟩
    · have hg1 := hgood st st1 Artifact.txt hf ht hf1
      cases b1 with
      | false =>
        have hrun : downloadLoop L E requestId answers j st (f :: rest)
            = downloadLoop L E requestId answers (j + 1) st1 rest := by
          simp [downloadLoop, e1]
        rw [hrun]
        exact ih (j + 1) st1 hrest (hp1.trans hp) (hx1.trans he) hg1
      | true =>
        rcases fetchArtifact_spec L E requestId answers j f Artifact.alto st1
            (hurl f (List.mem_cons_self _ _) Artifact.alto) with
          ⟨ht2, st2, e2, hx2, hp2, hf2⟩ | ⟨ht2, b2, st2, e2, hx2, hp2, hf2, -, -⟩
        · have hrun : downloadLoop L E requestId answers j st (f :: rest) = st2 := by
            simp [downloadLoop, e1, e2]
          rw [hrun]
          exact ⟨hp2.trans (hp1.trans hp), Or.inr ⟨hx2, st1.fetches, _, hf2, ht2, hg1⟩⟩
        · have hrun : downloadLoop L E requestId answers j st (f :: rest)
              = downloadLoop L E requestId answers (j + 1) st2 rest := by
            simp [downloadLoop, e1, e2]
          rw [hrun]
          exact ih (j + 1) st2 hrest (hp2.trans (hp1.trans hp)) (hx2.trans (hx1.trans he))
            (hgood st1 st2 Artifact.alto hg1 ht2 hf2)

/-- Invariant of the download loop when every request is built and no fetch
ends in a transport error: the text fetch of every key is made, the layout
fetch too unless the text file could not be opened, and an output file none of
whose fetches was answered with status 200 is left as it was. -/
theorem downloadLoop_no_transport (L : TextLib) (E : Env) (requestId : GoString)
    (answers : Nat → Artifact → HttpResult Content)
    (h : ∀ i a, isTransport (answers i a) = false)
    (files : List GoString) (j : Nat) (st : DownloadEnd)
    (hurl : ∀ file ∈ files, ∀ a,
      E.newRequest (downloadURL E requestId (ocrFilename L file) a) = true) :
    (∀ x ∈ st.fetches, x ∈ (downloadLoop L E requestId answers j st files).fetches) ∧
    (∀ i file, files[i]? = some file →
      (j + i, ocrFilename L file, Artifact.txt)
        ∈ (downloadLoop L E requestId answers j st files).fetches ∧
      ((∃ body, answers (j + i) Artifact.txt = HttpResult.response 200 body ∧
          E.canWrite (outputPath file Artifact.txt) = false) ∨
        (j + i, ocrFilename L file, Artifact.alto)
          ∈ (downloadLoop L E requestId answers j st files).fetches)) ∧
    (∀ q, (∀ i file a, files[i]? = some file → outputPath file a = q →
        ∀ body, answers (j + i) a ≠ HttpResult.response 200 body) →
      (downloadLoop L E requestId answers j st files).fs q = st.fs q) := by
  induction files generalizing j st with
  | nil => simp [downloadLoop]
  | cons f rest ih =>
    have hrest : ∀ file ∈ rest, ∀ a,
        E.newRequest (downloadURL E requestId (ocrFilename L file) a) = true :=
      fun file hfile a => hurl file (List.mem_cons_of_mem _ hfile) a
    have hnt : ∀ a, ¬ isTransport (answers j a) = true := fun a => by simp [h j a]
    rcases fetchArtifact_spec L E requestId answers j f Artifact.txt st
        (hurl f (List.mem_cons_self _ _) Artifact.txt) with
      ⟨ht, -⟩ | ⟨-, b1, st1, e1, -, -, hf1, hb1, hq1⟩
    · exact absurd ht (hnt _)
    have key : ∃ st2, downloadLoop L E requestId answers j st (f :: rest)
          = downloadLoop L E requestId answers (j + 1) st2 rest ∧
          (∀ x ∈ st1.fetches, x ∈ st2.fetches) ∧
          ((∃ body, answers j Artifact.txt = HttpResult.response 200 body ∧
              E.canWrite (outputPath f Artifact.txt) = false) ∨
            (j, ocrFilename L f, Artifact.alto) ∈ st2.fetches) ∧
          (∀ q, (∀ a, outputPath f a = q →
              ∀ body, answers j a ≠ HttpResult.response 200 body) → st2.fs q = st.fs q) := by
      cases b1 with
      | false =>
        refine ⟨st1, ?_, fun x hx => hx, Or.inl (hb1 rfl), ?_⟩
        · simp [downloadLoop, e1]
        · intro q hq
          exact hq1 q (hq Artifact.txt)
      | true =>
        rcases fetchArtifact_spec L E requestId answers j f Artifact.alto st1
            (hurl f (List.mem_cons_self _ _) Artifact.alto) with
          ⟨ht, -⟩ | ⟨-, b2, st2, e2, -, -, hf2, -, hq2⟩
        · exact absurd ht (hnt _)
        refine ⟨st2, ?_, ?_, Or.inr ?_, ?_⟩
        · simp [downloadLoop, e1, e2]
        · intro x hx
          rw [hf2]
          exact List.mem_append_left _ hx
        · rw [hf2]
          exact List.mem_append_right _ (List.mem_singleton_self _)
        · intro q hq
          rw [hq2 q (hq Artifact.alto), hq1 q (hq Artifact.txt)]
    obtain ⟨st2, eq, hsub, halto, hfs2⟩ := key
    obtain ⟨ih2, ih3, ih4⟩ := ih (j + 1) st2 hrest
    rw [eq]
    refine ⟨?_, ?_, ?_⟩
    · intro x hx
      apply ih2
      apply hsub
      rw [hf1]
      exact List.mem_append_left _ hx
    · intro i file hi
      cases i with
      | zero =>
        simp only [List.getElem?_cons_zero, Option.some.injEq] at hi
        subst hi
        refine ⟨ih2 _ (hsub _ ?_), ?_⟩
        · rw [hf1]
          exact List.mem_append_right _ (List.mem_singleton_self _)
        · rcases halto with hl | hr
          · exact Or.inl hl
          · exact Or.inr (ih2 _ hr)
      | succ n =>
        simp only [List.getElem?_cons_succ] at hi
        have := ih3 n file hi
        have hidx : j + (n + 1) = j + 1 + n := by omega
        rw [hidx]
        exact this
    · intro q hq
      rw [ih4 q, hfs2 q]
      · intro a ha
        exact hq 0 f a (by simp) ha
      · intro i file a hi ha
        have := hq (i + 1) file a (by simpa using hi) ha
        have hidx : j + (i + 1) = j + 1 + i := by omega
        rw [hidx] at this
        exact this

/-- Claim C7, amended: when `http.NewRequest` builds the request of every
fetch, `downloadOcrAlto` does not panic, and it stops early only by the exit
with code 1 of a fetch ended in a transport error, which is then the last
fetch made: the process exits with code 1 exactly when a fetch made ended in a
transport error, and no fetch made before the last ended in one. When no fetch
ends in a transport error, whatever the statuses of the answers, it attempts
the text fetch of every key, and the layout fetch of a key too unless the text
answer had status 200 and the text file could not be opened (the `continue` of
the loop); an output file none of whose fetches was answered with status 200
is left as it was. So an answer with a status other than 200 is skipped and
never prevents the fetches of the following keys. -/
theorem download_continues (L : TextLib) (E : Env) (fs : FS) (files : List GoString)
    (requestId : GoString) (answers : Nat → Artifact → HttpResult Content)
    (hurl : ∀ file ∈ files, ∀ a,
      E.newRequest (downloadURL E requestId (ocrFilename L file) a) = true) :
    (downloadOcrAlto L E fs files requestId answers).panicked = false ∧
    ((downloadOcrAlto L E fs files requestId answers).exit = none ∨
      (downloadOcrAlto L E fs files requestId answers).exit = some 1) ∧
    ((downloadOcrAlto L E fs files requestId answers).exit = some 1 ↔
      ∃ x ∈ (downloadOcrAlto L E fs files requestId answers).fetches,
        isTransport (answers x.1 x.2.2) = true) ∧
    (∀ x ∈ (downloadOcrAlto L E fs files requestId answers).fetches.dropLast,
      isTransport (answers x.1 x.2.2) = false) ∧
    ((∀ i a, isTransport (answers i a) = false) →
      (downloadOcrAlto L E fs files requestId answers).exit = none ∧
      (∀ i file, files[i]? = some file →
        (i, ocrFilename L file, Artifact.txt)
          ∈ (downloadOcrAlto L E fs files requestId answers).fetches ∧
        ((∃ body, answers i Artifact.txt = HttpResult.response 200 body ∧
            E.canWrite (outputPath file Artifact.txt) = false) ∨
          (i, ocrFilename L file, Artifact.alto)
            ∈ (downloadOcrAlto L E fs files requestId answers).fetches)) ∧
      (∀ q, (∀ i file a, files[i]? = some file → outputPath file a = q →
          ∀ body, answers i a ≠ HttpResult.response 200 body) →
        (downloadOcrAlto L E fs files requestId answers).fs q = fs q)) := by
  obtain ⟨hpan, hstop⟩ := downloadLoop_stop L E requestId answers files 0
    { exit := none, panicked := false, fs := fs, fetches := [] } hurl rfl rfl
    (fun x hx => absurd hx (List.not_mem_nil _))
  have hexit : (downloadOcrAlto L E fs files requestId answers).exit = some 1 ↔
      ∃ x ∈ (downloadOcrAlto L E fs files requestId answers).fetches,
        isTransport (answers x.1 x.2.2) = true := by
    rcases hstop with ⟨h0, hall⟩ | ⟨h1, pre, x, hfe, hx, -⟩
    · constructor
      · intro h1
        rw [show (downloadOcrAlto L E fs files requestId answers).exit = none from h0] at h1
        exact absurd h1 (by simp)
      · rintro ⟨x, hx, ht⟩
        rw [hall x hx] at ht
        exact absurd ht (by simp)
    · constructor
      · intro _
        refine ⟨x, ?_, hx⟩
        show x ∈ (downloadLoop L E requestId answers 0 _ files).fetches
        rw [hfe]
        exact List.mem_append_right _ (List.mem_singleton_self _)
      · intro _
        exact h1
  refine ⟨hpan, ?_, hexit, ?_, ?_⟩
  · rcases hstop with ⟨h0, -⟩ | ⟨h1, -⟩
    · exact Or.inl h0
    · exact Or.inr h1
  · rcases hstop with ⟨-, hall⟩ | ⟨-, pre, x, hfe, -, hpre⟩
    · intro x hx
      exact hall x (List.mem_of_mem_dropLast hx)
    · intro y hy
      have hd : (downloadOcrAlto L E fs files requestId answers).fetches.dropLast = pre := by
        show (downloadLoop L E requestId answers 0 _ files).fetches.dropLast = pre
        rw [hfe, List.dropLast_concat]
      rw [hd] at hy
      exact hpre y hy
  · intro hnone
    obtain ⟨-, h3, h4⟩ := downloadLoop_no_transport L E requestId answers hnone files 0
      { exit := none, panicked := false, fs := fs, fetches := [] } hurl
    refine ⟨?_, ?_, ?_⟩
    · rcases hstop with ⟨h0, -⟩ | ⟨-, pre, x, -, hx, -⟩
      · exact h0
      · rw [hnone] at hx
        exact absurd hx (by simp)
    · intro i file hi
      have := h3 i file hi
      simpa [downloadOcrAlto] using this
    · intro q hq
      have := h4 q (by simpa using hq)
      simpa [downloadOcrAlto] using this

/-- Claim C7, witness: every request is built. In the first run both fetches
for `a.jpg` are answered with status 404 and those for `b.jpg` with 200: the
process does not exit and the text fetch for `b.jpg` is made. In the second run
the layout fetch for `a.jpg` ends in a transport error: the process exits with
code 1. -/
theorem download_continues_witness :
    (∀ file ∈ ["a.jpg".toList, "b.jpg".toList], ∀ a,
      plainEnv.newRequest (downloadURL plainEnv "r1".toList (ocrFilename czechLib file) a)
        = true) ∧
    ((downloadOcrAlto czechLib plainEnv (fsOf []) ["a.jpg".toList, "b.jpg".toList] "r1".toList
      (fun i _ => if i = 0 then HttpResult.response 404 []
                  else HttpResult.response 200 "text".toList)).exit = none ∧
     (1, "b.jpg".toList, Artifact.txt) ∈
      (downloadOcrAlto czechLib plainEnv (fsOf []) ["a.jpg".toList, "b.jpg".toList]
        "r1".toList
        (fun i _ => if i = 0 then HttpResult.response 404 []
                    else HttpResult.response 200 "text".toList)).fetches) ∧
    (downloadOcrAlto czechLib plainEnv (fsOf []) ["a.jpg".toList, "b.jpg".toList] "r1".toList
      (fun _ a => match a with
        | Artifact.txt => HttpResult.response 404 []
        | Artifact.alto => HttpResult.transportError true)).exit = some 1 :=
  have hurl : ∀ file ∈ ["a.jpg".toList, "b.jpg".toList], ∀ a,
      plainEnv.newRequest (downloadURL plainEnv "r1".toList (ocrFilename czechLib file) a)
        = true := by decide
  have hnone : ∀ (i : Nat) (a : Artifact), isTransport
      ((fun (i : Nat) (_ : Artifact) => if i = 0 then HttpResult.response 404 ([] : Content)
        else HttpResult.response 200 "text".toList) i a) = false := by
    intro i a
    by_cases h : i = 0 <;> simp [h, isTransport]
  ⟨hurl,
   ⟨((download_continues czechLib plainEnv (fsOf []) ["a.jpg".toList, "b.jpg".toList]
        "r1".toList _ hurl).2.2.2.2 hnone).1,
    (((download_continues czechLib plainEnv (fsOf []) ["a.jpg".toList, "b.jpg".toList]
        "r1".toList _ hurl).2.2.2.2 hnone).2.1 1 "b.jpg".toList (by decide)).1⟩,
   (download_continues czechLib plainEnv (fsOf []) ["a.jpg".toList, "b.jpg".toList]
      "r1".toList _ hurl).2.2.1.mpr ⟨(0, "a.jpg".toList, Artifact.alto), by decide, by decide⟩⟩

/-! ## Evaluations -/

/-- Claim C1, evaluation: with one uploaded file and the decoded answer `{}`,
which has no entry `request_status`, the cycle counts no file as done, logs that
it tries again, and leaves the loop; with four files of which one reports
`PROCESSING` it stays in the loop; with `request_status` present and the status
of a key absent, the type assertion panics. -/
theorem poll_leaves_without_request_status :
    pollCycle czechLib ["a.jpg".toList] (HttpResult.response 200 (some []))
      = Outcome.ret { leave := true, doneCount := 0, retryLogged := true } ∧
    waitForOcrFinish czechLib ["a.jpg".toList] [HttpResult.response 200 (some [])]
      = Outcome.ret (some 1) ∧
    pollCycle czechLib ["a.jpg".toList, "b.jpg".toList, "c.jpg".toList, "d.jpg".toList]
      (HttpResult.response 200 (some [("request_status".toList, JVal.obj
        [("a.jpg".toList, JVal.obj [("state".toList, JVal.str "PROCESSED".toList)]),
         ("b.jpg".toList, JVal.obj [("state".toList, JVal.str "PROCESSING".toList)]),
         ("c.jpg".toList, JVal.obj [("state".toList, JVal.str "PROCESSED".toList)]),
         ("d.jpg".toList, JVal.obj [("state".toList, JVal.str "PROCESSED".toList)])])]))
      = Outcome.ret { leave := false, doneCount := 3, retryLogged := true } ∧
    pollCycle czechLib ["a.jpg".toList, "b.jpg".toList]
      (HttpResult.response 200 (some [("request_status".toList, JVal.obj
        [("a.jpg".toList, JVal.obj [("state".toList, JVal.str "PROCESSED".toList)])])]))
      = Outcome.panic := by
  decide

/-- Claim C8, counterexample: the answers 404 and 401 to status polling both
exit with code 6, and so do the answers 404 and 422 to the submission. -/
theorem exit_codes_collide :
    (pollCycle czechLib [] (HttpResult.response 404 none)).exitCode = some 6 ∧
    (pollCycle czechLib [] (HttpResult.response 401 none)).exitCode = some 6 ∧
    (postPreprocessRequest czechLib 1 [] (fun _ => HttpResult.response 404 none)).exitCode
      = some 6 ∧
    (postPreprocessRequest czechLib 1 [] (fun _ => HttpResult.response 422 none)).exitCode
      = some 6 := by
  decide

/-- Claim C10, evaluation: the directory holds `a.jpg` and `a.tif`, both are in
the list and every upload succeeds. Transcoding `a.tif` writes over `a.jpg`, the
request for the key `a.tif` sends the transcoded bytes under the path `a.jpg`,
and the removal of the temporary file deletes `a.jpg`. -/
theorem upload_deletes_input :
    isImage "a.jpg".toList = true ∧ isImage "a.tif".toList = true ∧
    fsOf [("a.jpg".toList, "J".toList), ("a.tif".toList, "T".toList)] "a.jpg".toList
      = some "J".toList ∧
    (uploadFilesForOcr czechLib plainEnv
      (fsOf [("a.jpg".toList, "J".toList), ("a.tif".toList, "T".toList)])
      ["a.jpg".toList, "a.tif".toList] "r1".toList
      (fun _ => HttpResult.response 200 ())).map
        (fun e => (e.uploadedFiles, e.fs "a.jpg".toList, e.requests))
      = some (["a.jpg".toList, "a.tif".toList], none,
          [⟨"a.jpg".toList, "a.jpg".toList, "J".toList⟩,
           ⟨"a.tif".toList, "a.jpg".toList, "jpeg of T".toList⟩]) := by
  decide

/-- Claim C9, evaluation: `a.txt` holds nine bytes and the text answer has
three; afterwards the file holds the three new bytes followed by the last six
old ones, the file being opened without truncation. -/
theorem download_keeps_stale_tail :
    (downloadOcrAlto czechLib plainEnv
      (fsOf [("a.jpg".toList, "img".toList), ("a.txt".toList, "OLDOLDOLD".toList)])
      ["a.jpg".toList] "r1".toList
      (fun _ a => match a with
        | Artifact.txt => HttpResult.response 200 "new".toList
        | Artifact.alto => HttpResult.response 404 [])).fs "a.txt".toList
      = some "newOLDOLD".toList := by
  decide

/-- Claim C7, counterexample: the first fetch ends in a transport failure; the
process exits with code 1 and the fetch for the text of `a.jpg` is the only one
made, none for the key `b.jpg`. -/
theorem download_exits_on_transport_error :
    (∀ a, plainEnv.newRequest (downloadURL plainEnv "r1".toList "b.jpg".toList a) = true) ∧
    (downloadOcrAlto czechLib plainEnv (fsOf []) ["a.jpg".toList, "b.jpg".toList] "r1".toList
      (fun _ _ => HttpResult.transportError false)).exit = some 1 ∧
    (downloadOcrAlto czechLib plainEnv (fsOf []) ["a.jpg".toList, "b.jpg".toList] "r1".toList
      (fun _ _ => HttpResult.transportError false)).fetches
      = [(0, "a.jpg".toList, Artifact.txt)] := by
  decide

/-- Claim C6, evaluation: the directory holds `a.tif` and `b.jpg`, and `a.tif`
may not be read. `convertTiffToJpg` gives up on `a.tif` (its message ends in
`skipping...`) and returns the empty path, the loop falls back to `a.tif`
itself, `mustOpen` panics, and `uploadFilesForOcr` returns nothing, although
every upload would be answered with status 200; `b.jpg` is not attempted. In
the same way, with two readable files of which the first is named `100%.jpg`,
`http.NewRequest` builds no request for the first, the nil request is
dereferenced, and nothing is returned. -/
theorem upload_panics_on_unopenable :
    fsOf [("a.tif".toList, "A".toList), ("b.jpg".toList, "B".toList)] "a.tif".toList
      = some "A".toList ∧
    (convertTiffToJpg czechLib (lockedEnv ["a.tif".toList])
      (fsOf [("a.tif".toList, "A".toList), ("b.jpg".toList, "B".toList)])
      "a.tif".toList).1 = [] ∧
    (uploadFilesForOcr czechLib (lockedEnv ["a.tif".toList])
      (fsOf [("a.tif".toList, "A".toList), ("b.jpg".toList, "B".toList)])
      ["a.tif".toList, "b.jpg".toList] "r1".toList
      (fun _ => HttpResult.response 200 ())).isSome = false ∧
    plainEnv.newRequest (uploadURL plainEnv "r1".toList (ocrFilename czechLib "100%.jpg".toList))
      = false ∧
    (uploadFilesForOcr czechLib plainEnv
      (fsOf [("100%.jpg".toList, "X".toList), ("c.jpg".toList, "C".toList)])
      ["100%.jpg".toList, "c.jpg".toList] "r1".toList
      (fun _ => HttpResult.response 200 ())).isSome = false := by
  decide

end PeroOcr
